import Mathlib

/-!
# Verification of the docs build pipeline's markdown transformation engine

This file gives a shallow embedding, in Lean 4, of the text-rewriting core of
the documentation build pipeline:

* `pipeline/preprocessors/handle_constants.py` — `$[name]` constant substitution,
* `pipeline/preprocessors/markdown_preprocessor.py` — conditional `:::lang` block
  resolution, fence unescaping and `ignore`-block stripping,
* `pipeline/constants.py` — the regular expression patterns
  (`CONSTANT_PATTERN`, `CONDITIONAL_BLOCK_PATTERN`, `CODE_BLOCK_PATTERN`,
  `LANGUAGE_COMMENT_SYNTAX`),
* `pipeline/core/snippets.py` — code-block extraction, snippet grouping,
  dedenting, serialization and per-file export,
* `pipeline/preprocessors/link_map.py` — the manual link maps, the
  merge of manual and auto-generated maps, and per-scope link enumeration.

Text is modelled as `List Char`.  Python's `re.sub` / `re.finditer` over the
concrete patterns of `constants.py` is modelled by a single generic scanner
(`reSubGo`) driven by per-pattern matcher functions that implement exactly the
backtracking behaviour of those patterns (greedy character classes, the lazy
`(?:.*\n)*?` content group, the `(?<!\\)` lookbehind, and the backreference
`(?P=indent)`).  Python's `\w` and `\s` classes are modelled at ASCII
granularity, which is exact for all inputs considered here.
-/

namespace Docs

/-- Characters matched by `[ \t]` in the patterns of `constants.py`. -/
def isIndentChar (c : Char) : Bool := c == ' ' || c == '\t'

/-- ASCII model of Python's `\s` class (`str.isspace` on ASCII):
space, tab, newline, carriage return, form feed and vertical tab. -/
def isPySpace (c : Char) : Bool :=
  c == ' ' || c == '\t' || c == '\n' || c == '\r' || c == '\x0c' || c == '\x0b'

/-- ASCII model of Python's `\w` class: letters, digits and underscore. -/
def isWordChar (c : Char) : Bool := c.isAlpha || c.isDigit || c == '_'

/-- Python `str.lstrip()` (whitespace only). -/
def pyLStrip (s : List Char) : List Char := s.dropWhile isPySpace

/-- Python `str.rstrip()` (whitespace only). -/
def pyRStrip (s : List Char) : List Char := (s.reverse.dropWhile isPySpace).reverse

/-- Python `str.strip()` (whitespace only). -/
def pyStrip (s : List Char) : List Char := pyRStrip (pyLStrip s)

/-- Python `"\n"`-strip used by `str.strip("\n")` in `_stringify_code_snippet`. -/
def stripNewlines (s : List Char) : List Char :=
  ((s.dropWhile (fun c => c == '\n')).reverse.dropWhile (fun c => c == '\n')).reverse

/-- Boolean substring test (Python's `in` operator on strings). -/
def hasSub (pat : List Char) : List Char → Bool
  | [] => pat.isEmpty
  | c :: rest => pat.isPrefixOf (c :: rest) || hasSub pat rest

/-- First-occurrence association-list lookup (Python `dict.get` on a dict
whose construction kept keys unique). -/
def alistGet {α β : Type} [DecidableEq α] (m : List (α × β)) (k : α) : Option β :=
  match m with
  | [] => none
  | (k', v) :: rest => if k' = k then some v else alistGet rest k

/-- Python `d[k] = v` on an insertion-ordered dict: overwrite in place if the
key is present (keeping its position), otherwise append. -/
def alistSet {α β : Type} [DecidableEq α] (m : List (α × β)) (k : α) (v : β) :
    List (α × β) :=
  match m with
  | [] => [(k, v)]
  | (k', v') :: rest =>
    if k' = k then (k, v) :: rest else (k', v') :: alistSet rest k v

/-- Python `dst.update(src)` on insertion-ordered dicts, with `src` given as
its insertion-ordered entry list. -/
def dictUpdate {α β : Type} [DecidableEq α] (dst : List (α × β))
    (src : List (α × β)) : List (α × β) :=
  src.foldl (fun m kv => alistSet m kv.1 kv.2) dst

/-- Value associated to `k` by the *last* entry of `src` carrying key `k`
(the one that survives a left-to-right sequence of dict writes). -/
def lastLookup {α β : Type} [DecidableEq α] (src : List (α × β)) (k : α) :
    Option β :=
  match src with
  | [] => none
  | (k', v) :: rest =>
    match lastLookup rest k with
    | some v' => some v'
    | none => if k' = k then some v else none

/-!
## The generic `re.sub` scanner

`reSubGo m fuel prev s` models Python's `pattern.sub(repl, s)` scanning loop:
positions are tried left to right; `m prev suffix` decides whether the pattern
matches at the current position (`prev` is the character just before that
position in the *original* subject string, as inspected by `(?<!\\)`
lookbehinds) and, if so, returns the length of the match and its replacement.
After a match the scan resumes immediately after the matched text; otherwise
one character is copied and the scan advances.  `fuel` is an upper bound on
the number of scanning steps; every call site passes `s.length`, which is
always sufficient because every match of the patterns modelled here consumes
at least one character.
-/

/-- A matcher: given the previous original character and the current suffix,
optionally returns (number of characters matched, replacement text). -/
abbrev Matcher := Option Char → List Char → Option (Nat × List Char)

/-- The scanning loop of `re.sub` (see module comment). -/
def reSubGo (m : Matcher) : Nat → Option Char → List Char → List Char
  | 0, _, s => s
  | _ + 1, _, [] => []
  | fuel + 1, prev, c :: rest =>
    match m prev (c :: rest) with
    | none => c :: reSubGo m fuel (some c) rest
    | some (0, repl) => repl ++ c :: reSubGo m fuel (some c) rest
    | some (n + 1, repl) =>
      repl ++ reSubGo m fuel ((c :: rest)[n]?) (rest.drop n)

/-- `pattern.sub(repl, s)` for a whole subject string. -/
def reSub (m : Matcher) (s : List Char) : List Char := reSubGo m s.length none s

/-- The character preceding position `i` of `s` when the scan of `s` started
with preceding character `prev` (what a lookbehind sees at position `i`). -/
def prevAt (prev : Option Char) (s : List Char) (i : Nat) : Option Char :=
  if i = 0 then prev else s[i - 1]?

/-!
## Constant substitution (`handle_constants.py`)

`CONSTANT_PATTERN = re.compile(r"(?<!\\)\$\[(?P<constant>[^\]]+)\]")`, and

```
substituted = CONSTANT_PATTERN.sub(_replace, markdown)
return re.sub(r"\\(\$\[)", r"\1", substituted)
```

where `_replace` substitutes `CONSTANTS_MAP[name]` when present and otherwise
returns the token unchanged (and logs; logging is not modelled).
The constants map itself (`constants_map.py`) is the empty dict; the tests
install entries into it, so the substitution function is modelled as
parameterised over the map, with `CONSTANTS_MAP` as the repository's value.
-/

/-- The shape part of `CONSTANT_PATTERN`: at the current position, an
unescaped `$[name]` token with a nonempty, `]`-free name.  Returns the length
matched and the `constant` group. -/
def constantTokenAt (prev : Option Char) (s : List Char) :
    Option (Nat × List Char) :=
  if prev = some '\\' then none
  else
    match s with
    | '$' :: '[' :: rest =>
      let name := rest.takeWhile (fun c => c != ']')
      if name.isEmpty then none
      else
        match rest.drop name.length with
        | ']' :: _ => some (name.length + 3, name)
        | _ => none
    | _ => none

/-- `CONSTANT_PATTERN.sub(_replace, ·)`'s matcher: replacement is the mapped
value for a known constant, the token itself (`match.group(0)`) otherwise. -/
def constantMatcher (cmap : List (List Char × List Char)) : Matcher :=
  fun prev s =>
    (constantTokenAt prev s).map fun (n, name) =>
      (n, ((alistGet cmap name).getD (s.take n)))

/-- Matcher for the unescape pass `re.sub(r"\\(\$\[)", r"\1", ·)`. -/
def constantUnescapeMatcher : Matcher :=
  fun _ s =>
    match s with
    | '\\' :: '$' :: '[' :: _ => some (3, ['$', '['])
    | _ => none

/-- `replace_constants`, parameterised by the constants map.  The `file_path`
argument of the Python function is used only for logging and is omitted. -/
def replaceConstantsWith (cmap : List (List Char × List Char))
    (markdown : List Char) : List Char :=
  reSub constantUnescapeMatcher (reSub (constantMatcher cmap) markdown)

/-- `CONSTANTS_MAP` from `constants_map.py` (the empty registry). -/
def CONSTANTS_MAP : List (List Char × List Char) := []

/-- `replace_constants` from `handle_constants.py`. -/
def replace_constants (markdown : List Char) : List Char :=
  replaceConstantsWith CONSTANTS_MAP markdown

/-!
## Conditional blocks and fenced code blocks (`constants.py` patterns)

```
CONDITIONAL_BLOCK_PATTERN = re.compile(
    r"(?P<indent>[ \t]*)(?<!\\):::(?P<language>\w+)\s*\n"
    r"(?P<content>((?:.*\n)*?))"
    r"(?P=indent)[ \t]*(?<!\\):::")

CODE_BLOCK_PATTERN = re.compile(
    r"(?P<indent>[ \t]*)```(?P<language>\w+)[ ]*(?P<attributes>[^\n]*)\n"
    r"(?P<code>((?:.*\n)*?))"
    r"(?P=indent)```")
```

Both patterns have the same skeleton: a greedy `[ \t]*` indent (which cannot
backtrack, since the literal that follows is not in `[ \t]`), a literal
fence, a greedy `\w+` language (which cannot backtrack either), a line
terminator, a *lazy* content group made of whole lines, and a closing fence at
the original indentation.  Since the lazy content group only ever stops at the
start of a line, the closing fence always starts at the beginning of a line,
so the character before the closing `:::` is a newline, space or tab — never a
backslash — and the closing `(?<!\\)` lookbehind of the conditional pattern is
vacuous there.  The only genuine backtracking point besides the lazy content
is `\s*` before the opening fence's `\n` (because `\s` includes `\n` itself):
it settles on newlines inside the run of whitespace following the language
tag, latest first.
-/

/-- Split off the first `.*\n` line: the longest newline-free prefix together
with the text after its terminating newline.  `none` when `s` has no newline. -/
def splitFirstLine (s : List Char) : Option (List Char × List Char) :=
  match s.dropWhile (fun c => c != '\n') with
  | c :: rest =>
    if c = '\n' then some (s.takeWhile (fun c => c != '\n'), rest) else none
  | [] => none

/-- The lazy `(?P<content>((?:.*\n)*?))` search: starting with the empty
content, repeatedly try the closing fence via `close`; on failure extend the
content by one full line.  Returns the content group and the length consumed
by the closing fence.  `fuel` bounds the recursion; callers pass the length of
`rest`, which suffices since every extension consumes at least one character. -/
def lazyContent (close : List Char → Option Nat) : Nat → List Char →
    Option (List Char × Nat)
  | 0, rest =>
    match close rest with
    | some n => some ([], n)
    | none => none
  | fuel + 1, rest =>
    match close rest with
    | some n => some ([], n)
    | none =>
      match splitFirstLine rest with
      | some (line, rest') =>
        (lazyContent close fuel rest').map fun (c, n) => (line ++ '\n' :: c, n)
      | none => none

/-- The closing fence `(?P=indent)[ \t]*(?<!\\):::` of the conditional block
pattern, tried at the start of a line: the exact indent backreference, any
further spaces/tabs, then the literal `:::` (the lookbehind is vacuous here,
see the section comment).  Returns the length consumed. -/
def condCloseAt (indent : List Char) (rest : List Char) : Option Nat :=
  if indent.isPrefixOf rest then
    if [':', ':', ':'].isPrefixOf ((rest.drop indent.length).dropWhile isIndentChar) then
      some (indent.length +
        ((rest.drop indent.length).takeWhile isIndentChar).length + 3)
    else none
  else none

/-- The closing fence `(?P=indent)```​` of the code block pattern. -/
def codeCloseAt (indent : List Char) (rest : List Char) : Option Nat :=
  if indent.isPrefixOf rest then
    if ['`', '`', '`'].isPrefixOf (rest.drop indent.length) then
      some (indent.length + 3)
    else none
  else none

/-- Candidate split points for `\s*\n`: the indices of newline characters
inside the maximal whitespace run, tried greedily (largest first). -/
def newlineSplits (run : List Char) : List Nat :=
  ((List.range run.length).filter (fun i => run[i]? = some '\n')).reverse

/-- The `\s*\n` + lazy content + closing fence tail of both block patterns,
starting just after the language group.  Returns (characters consumed by
`\s*\n`, content group, characters consumed by the closing fence). -/
def blockTail (close : List Char → Option Nat) (s : List Char) :
    Option (Nat × List Char × Nat) :=
  let run := s.takeWhile isPySpace
  (newlineSplits run).findSome? fun i =>
    let rest := s.drop (i + 1)
    (lazyContent close rest.length rest).map fun (content, n) =>
      (i + 1, content, n)

/-- A match of `CONDITIONAL_BLOCK_PATTERN` at the current position: returns
(length matched, `language` group, `content` group). -/
def condBlockMatchAt (prev : Option Char) (s : List Char) :
    Option (Nat × List Char × List Char) :=
  -- the opening (?<!\\) lookbehind: the character before ":::" is the last
  -- indent character (a space or tab, never a backslash) or, with an empty
  -- indent, the character before the match position
  if ((s.takeWhile isIndentChar).getLast? <|> prev) = some '\\' then none
  else
    match s.drop (s.takeWhile isIndentChar).length with
    | ':' :: ':' :: ':' :: s2 =>
      if (s2.takeWhile isWordChar).isEmpty then none
      else
        (blockTail (condCloseAt (s.takeWhile isIndentChar))
            (s2.drop (s2.takeWhile isWordChar).length)).map
          fun (w, content, cl) =>
            ((s.takeWhile isIndentChar).length + 3 +
               (s2.takeWhile isWordChar).length + w + content.length + cl,
             s2.takeWhile isWordChar, content)
    | _ => none

/-- The post-language part of a `CODE_BLOCK_PATTERN` match, starting just
after the language group: `[ ]*`, the `attributes` group, the line's `\n`,
then the lazy `code` group and the closing fence.  Returns (length consumed
after the language group, attributes, code). -/
def codeBlockAfterLang (indent : List Char) (s3 : List Char) :
    Option (Nat × List Char × List Char) :=
  match ((s3.dropWhile (fun c => c == ' ')).dropWhile (fun c => c != '\n')) with
  | '\n' :: rest =>
    (lazyContent (codeCloseAt indent) rest.length rest).map
      fun (code, cl) =>
        ((s3.takeWhile (fun c => c == ' ')).length +
           ((s3.dropWhile (fun c => c == ' ')).takeWhile
             (fun c => c != '\n')).length + 1 + code.length + cl,
         (s3.dropWhile (fun c => c == ' ')).takeWhile (fun c => c != '\n'),
         code)
  | _ => none

/-- A match of `CODE_BLOCK_PATTERN` at the current position: returns
(length matched, `language` group, `attributes` group, `code` group).
The pattern has no lookbehind. -/
def codeBlockMatchAt (s : List Char) :
    Option (Nat × List Char × List Char × List Char) :=
  match s.drop (s.takeWhile isIndentChar).length with
  | '`' :: '`' :: '`' :: s2 =>
    if (s2.takeWhile isWordChar).isEmpty then none
    else
      (codeBlockAfterLang (s.takeWhile isIndentChar)
          (s2.drop (s2.takeWhile isWordChar).length)).map
        fun (w, attrs, code) =>
          ((s.takeWhile isIndentChar).length + 3 +
             (s2.takeWhile isWordChar).length + w,
           s2.takeWhile isWordChar, attrs, code)
  | _ => none

/-!
## Conditional rendering (`markdown_preprocessor.py`)
-/

/-- `replace_conditional_blocks` as a matcher: keep unknown-language blocks
verbatim, inline the content for the target language, drop the block for the
other recognized language. -/
def condBlockMatcher (target : List Char) : Matcher :=
  fun prev s =>
    (condBlockMatchAt prev s).map fun (n, lang, content) =>
      (n,
       if lang = ("python").toList ∨ lang = ("js").toList then
         if lang = target then content else []
       else s.take n)

/-- Matcher for the unescape pass `re.sub(r"\\(:::)", r"\1", ·)`. -/
def colonUnescapeMatcher : Matcher :=
  fun _ s =>
    match s with
    | '\\' :: ':' :: ':' :: ':' :: _ => some (4, [':', ':', ':'])
    | _ => none

/-- `replace_ignored_code_blocks` as a matcher: drop a fenced code block whose
stripped attributes contain `ignore`, keep it verbatim otherwise. -/
def ignoredBlockMatcher : Matcher :=
  fun _ s =>
    (codeBlockMatchAt s).map fun (n, _, attrs, _) =>
      (n, if hasSub (['i', 'g', 'n', 'o', 'r', 'e']) (pyStrip attrs) then []
          else s.take n)

/-- `_apply_conditional_rendering`: conditional blocks, then `\:::`
unescaping, then `ignore`-marked code block stripping.  Returns `none` for the
`ValueError` raised on a target language other than `python`/`js`. -/
def apply_conditional_rendering (target : List Char) (md : List Char) :
    Option (List Char) :=
  if target = ("python").toList ∨ target = ("js").toList then
    some (reSub ignoredBlockMatcher
      (reSub colonUnescapeMatcher (reSub (condBlockMatcher target) md)))
  else none

/-!
## Snippet extraction and export (`pipeline/core/snippets.py`)
-/

/-- `CodeBlock` (a `TypedDict` in the source): zero-based source position of
the opening fence, normalized language, raw attribute string, raw content. -/
structure CodeBlock where
  line : Nat
  column : Nat
  language : List Char
  attributes : List Char
  content : List Char
deriving DecidableEq

/-- `CodeSnippet`: a group of code blocks sharing one language. -/
structure CodeSnippet where
  language : List Char
  code_blocks : List CodeBlock
deriving DecidableEq

/-- `LANGUAGE_COMMENT_SYNTAX` from `constants.py`. -/
def LANGUAGE_COMMENT_SYNTAX : List (List Char × List Char) :=
  [(('p' :: 'y' :: 't' :: 'h' :: 'o' :: 'n' :: []), ('#' :: ' ' :: [])),
   (('t' :: 'y' :: 'p' :: 'e' :: 's' :: 'c' :: 'r' :: 'i' :: 'p' :: 't' :: []),
    ('/' :: '/' :: ' ' :: []))]

/-- `self.language_aliases` from `DocumentationSnippetsParser.__init__`. -/
def language_aliases : List (List Char × List Char) :=
  [(("py").toList, ("python").toList),
   (("python").toList, ("python").toList),
   (("js").toList, ("typescript").toList),
   (("javascript").toList, ("typescript").toList),
   (("ts").toList, ("typescript").toList),
   (("typescript").toList, ("typescript").toList)]

/-- `self.language_file_assoc` from `DocumentationSnippetsParser.__init__`. -/
def language_file_assoc : List (List Char × List Char) :=
  [(("python").toList, (".py").toList),
   (("typescript").toList, (".ts").toList)]

/-- The scanning loop of `CODE_BLOCK_PATTERN.finditer`: the non-overlapping
matches found left to right, each tagged with its start offset.  `fuel` bounds
the steps; the caller passes the subject length. -/
def findCodeBlocks : Nat → Nat → List Char →
    List (Nat × List Char × List Char × List Char)
  | 0, _, _ => []
  | _ + 1, _, [] => []
  | fuel + 1, pos, c :: rest =>
    match codeBlockMatchAt (c :: rest) with
    | some (n + 1, lang, attrs, code) =>
      (pos, lang, attrs, code) ::
        findCodeBlocks fuel (pos + n + 1) (rest.drop n)
    | _ => findCodeBlocks fuel (pos + 1) rest

/-- Number of newlines before offset `pos` (the zero-based line of `pos`). -/
def lineAt (content : List Char) (pos : Nat) : Nat :=
  (content.take pos).count '\n'

/-- Characters between the last newline before `pos` and `pos` (the zero-based
column of `pos`; the whole prefix when it has no newline). -/
def columnAt (content : List Char) (pos : Nat) : Nat :=
  (((content.take pos).reverse).takeWhile (fun c => c != '\n')).length

/-- `_extract_code_blocks`: keep only blocks whose (right-stripped) attributes
mention `export` or `ignore`; compute line/column from the match offset;
normalize the language through the alias table. -/
def extract_code_blocks (content : List Char) : List CodeBlock :=
  (findCodeBlocks content.length 0 content).filterMap
    fun (pos, lang, attrs0, code) =>
      let attributes := pyRStrip attrs0
      if ¬ hasSub (("export").toList) attributes ∧
         ¬ hasSub (("ignore").toList) attributes then none
      else
        let language := pyStrip lang
        let language := (alistGet language_aliases language).getD language
        some ⟨lineAt content pos, columnAt content pos, language, attributes,
              code⟩

/-- The body of `reduce_code_blocks` inside `_extract_code_snippets`: append
to the previous snippet exactly when the language matches and the block's
attributes contain `merge-before`. -/
def reduce_code_blocks (acc : List CodeSnippet) (block : CodeBlock) :
    List CodeSnippet :=
  match acc.getLast? with
  | some prev =>
    if prev.language = block.language ∧
       hasSub (("merge-before").toList) block.attributes then
      acc.dropLast ++ [⟨prev.language, prev.code_blocks ++ [block]⟩]
    else acc ++ [⟨block.language, [block]⟩]
  | none => [⟨block.language, [block]⟩]

/-- `_extract_code_snippets`: extract blocks and fold them into snippets. -/
def extract_code_snippets (content : List Char) : List CodeSnippet :=
  (extract_code_blocks content).foldl reduce_code_blocks []

/-- `_dedent`: the leading `[ \t]+` run of the first non-blank line, removed
from every line that starts with that exact run (others left as-is). -/
def dedent (text : List Char) : List Char :=
  let lines := text.splitOn '\n'
  if lines.isEmpty then text
  else
    let firstLine := ((lines.filter (fun l => pyStrip l ≠ [])).head?).getD []
    let firstIndent := firstLine.takeWhile isIndentChar
    if firstIndent.isEmpty then text
    else
      let ded := lines.map fun l =>
        if firstIndent.isPrefixOf l then l.drop firstIndent.length else l
      List.intercalate ['\n'] ded

/-- Decimal digits of a natural number (Python's string formatting of an
`int` inside the f-strings of `_stringify_code_snippet` / `_export_file`). -/
def natDigits (n : Nat) : List Char := Nat.toDigits 10 n

/-- `_stringify_code_snippet`.  The comment marker is obtained by *indexing*
`LANGUAGE_COMMENT_SYNTAX` (`constants.LANGUAGE_COMMENT_SYNTAX[...]`), so a
language absent from that table raises `KeyError`; this is modelled by
returning `none`. -/
def stringify_code_snippet (sn : CodeSnippet) (file_path : Option (List Char))
    (annotate_blocks : Bool := true) : Option (List Char) :=
  match alistGet LANGUAGE_COMMENT_SYNTAX sn.language with
  | none => none
  | some mark =>
    let header : List (List Char) :=
      match file_path with
      | some fp =>
        if ¬ fp.isEmpty ∧ ¬ mark.isEmpty then
          [mark ++ ("File: ").toList ++ fp]
        else []
      | none => []
    let body : List (List Char) := sn.code_blocks.foldr
      (fun b acc =>
        (if annotate_blocks ∧ ¬ mark.isEmpty then
           [mark ++ ("Line: ").toList ++ natDigits b.line ++
              (", Column: ").toList ++ natDigits b.column]
         else []) ++ (dedent b.content :: acc))
      []
    some (stripNewlines (List.intercalate ['\n'] (header ++ body)))

/-- One write performed by `_export_file`: the per-language directory the
file lands in, the output file name `{language}_{idx}{ext}` (the mirrored
relative source path between them is not modelled), and the file's
contents. -/
structure SnippetWrite where
  language : List Char
  filename : List Char
  contents : List Char
deriving DecidableEq

/-- The per-snippet loop of `_export_file` over the enumerated snippet list:
a snippet whose per-language directory does not exist is skipped
(`continue`); otherwise the snippet is stringified (whose `KeyError` aborts
the whole call, modelled by `Except.error` carrying the language) and
written with extension `language_file_assoc.get(language, ".txt")`. -/
def exportLoop (existingDirs : List (List Char)) (relPath : List Char) :
    List (Nat × CodeSnippet) → Except (List Char) (List SnippetWrite)
  | [] => .ok []
  | (idx, sn) :: rest =>
    if (existingDirs.contains sn.language : Bool) then
      match stringify_code_snippet sn (some relPath) true with
      | none => .error sn.language
      | some out =>
        let ext := (alistGet language_file_assoc sn.language).getD
          ((".txt").toList)
        (exportLoop existingDirs relPath rest).map
          (fun ws =>
            ⟨sn.language, sn.language ++ '_' :: natDigits idx ++ ext, out⟩ :: ws)
    else exportLoop existingDirs relPath rest

/-- `_export_file`: extract the snippets of one source file and export each
one whose per-language output directory exists.  `existingDirs` is the set of
per-language directories present under the output directory, `relPath` the
source file's path relative to the source root. -/
def export_file (existingDirs : List (List Char)) (relPath : List Char)
    (content : List Char) : Except (List Char) (List SnippetWrite) :=
  exportLoop existingDirs relPath ((extract_code_snippets content).enum)

/-!
## Link maps (`pipeline/preprocessors/link_map.py`)

`link_map_generated.py` is produced by `scripts/generate_link_maps.py` and is
absent from the repository, so the `except ImportError` branch applies and
`AUTO_GENERATED_LINK_MAPS = []`.  The merge and enumeration functions are
modelled as parameterised over the auto-generated maps so that their
behaviour on arbitrary generated registries can be stated.
-/

/-- `LinkMap` (a `TypedDict` in the source); `links` is the insertion-ordered
entry list of the Python dict. -/
structure LinkMap where
  host : List Char
  scope : List Char
  links : List (List Char × List Char)
deriving DecidableEq

/-- Entry 1 of `MANUAL_LINK_MAPS` from `link_map.py` (transcribed in full). -/
def manualMap1 : LinkMap :=
  { host := ("https://langchain-ai.github.io/langgraph/").toList,
    scope := ("python").toList,
    links := [
      (("StateGraph").toList, ("reference/graphs/#langgraph.graph.StateGraph").toList),
      (("add_conditional_edges").toList, ("reference/graphs/#langgraph.graph.state.StateGraph.add_conditional_edges").toList),
      (("add_edge").toList, ("reference/graphs/#langgraph.graph.state.StateGraph.add_edge").toList),
      (("add_node").toList, ("reference/graphs/#langgraph.graph.state.StateGraph.add_node").toList),
      (("add_messages").toList, ("reference/graphs/#langgraph.graph.message.add_messages").toList),
      (("astream_events").toList, ("https://python.langchain.com/api_reference/core/language_models/langchain_core.language_models.chat_models.BaseChatModel.html#langchain_core.language_models.chat_models.BaseChatModel.astream_events").toList),
      (("ToolNode").toList, ("reference/agents/#langgraph.prebuilt.tool_node.ToolNode").toList),
      (("CompiledStateGraph.astream").toList, ("reference/graphs/#langgraph.graph.state.CompiledStateGraph.astream").toList),
      (("Pregel.astream").toList, ("reference/pregel/#langgraph.pregel.Pregel.astream").toList),
      (("AsyncPostgresSaver").toList, ("reference/checkpoints/#langgraph.checkpoint.postgres.aio.AsyncPostgresSaver").toList),
      (("AsyncSqliteSaver").toList, ("reference/checkpoints/#langgraph.checkpoint.sqlite.aio.AsyncSqliteSaver").toList),
      (("BaseCheckpointSaver").toList, ("reference/checkpoints/#langgraph.checkpoint.base.BaseCheckpointSaver").toList),
      (("BaseLoader").toList, ("https://python.langchain.com/api_reference/core/document_loaders/langchain_core.document_loaders.base.BaseLoader.html").toList),
      (("BaseStore").toList, ("reference/store/#langgraph.store.base.BaseStore").toList),
      (("BaseStore.put").toList, ("reference/store/#langgraph.store.base.BaseStore.put").toList),
      (("BinaryOperatorAggregate").toList, ("reference/pregel/#langgraph.pregel.Pregel--advanced-channels-context-and-binaryoperatoraggregate").toList),
      (("CipherProtocol").toList, ("reference/checkpoints/#langgraph.checkpoint.serde.base.CipherProtocol").toList),
      (("client.runs.stream").toList, ("cloud/reference/sdk/python_sdk_ref/#langgraph_sdk.client.RunsClient.stream").toList),
      (("client.runs.wait").toList, ("cloud/reference/sdk/python_sdk_ref/#langgraph_sdk.client.RunsClient.wait").toList),
      (("client.threads.get_history").toList, ("cloud/reference/sdk/python_sdk_ref/#langgraph_sdk.client.ThreadsClient.get_history").toList),
      (("client.threads.update_state").toList, ("cloud/reference/sdk/python_sdk_ref/#langgraph_sdk.client.ThreadsClient.update_state").toList),
      (("Command").toList, ("reference/types/#langgraph.types.Command").toList),
      (("CompiledStateGraph").toList, ("reference/graphs/#langgraph.graph.state.CompiledStateGraph").toList),
      (("create_react_agent").toList, ("reference/prebuilt/#langgraph.prebuilt.chat_agent_executor.create_react_agent").toList),
      (("get_runtime").toList, ("reference/runtime/#langgraph.runtime.get_runtime").toList),
      (("create_supervisor").toList, ("reference/supervisor/#langgraph_supervisor.supervisor.create_supervisor").toList),
      (("EncryptedSerializer").toList, ("reference/checkpoints/#langgraph.checkpoint.serde.encrypted.EncryptedSerializer").toList),
      (("entrypoint.final").toList, ("reference/func/#langgraph.func.entrypoint.final").toList),
      (("entrypoint").toList, ("reference/func/#langgraph.func.entrypoint").toList),
      (("from_pycryptodome_aes").toList, ("reference/checkpoints/#langgraph.checkpoint.serde.encrypted.EncryptedSerializer.from_pycryptodome_aes").toList),
      (("get_state_history").toList, ("reference/graphs/#langgraph.graph.state.CompiledStateGraph.get_state_history").toList),
      (("get_stream_writer").toList, ("reference/config/#langgraph.config.get_stream_writer").toList),
      (("HumanInterrupt").toList, ("reference/prebuilt/#langgraph.prebuilt.interrupt.HumanInterrupt").toList),
      (("InjectedState").toList, ("reference/agents/#langgraph.prebuilt.tool_node.InjectedState").toList),
      (("InMemorySaver").toList, ("reference/checkpoints/#langgraph.checkpoint.memory.InMemorySaver").toList),
      (("init_chat_model").toList, ("https://python.langchain.com/api_reference/langchain/chat_models/langchain.chat_models.base.init_chat_model.html").toList),
      (("interrupt").toList, ("reference/types/#langgraph.types.interrupt").toList),
      (("CompiledStateGraph.invoke").toList, ("reference/graphs/#langgraph.graph.state.CompiledStateGraph.invoke").toList),
      (("JsonPlusSerializer").toList, ("reference/checkpoints/#langgraph.checkpoint.serde.jsonplus.JsonPlusSerializer").toList),
      (("langgraph.json").toList, ("cloud/reference/cli/#configuration-file").toList),
      (("LastValue").toList, ("reference/channels/#langgraph.channels.LastValue").toList),
      (("PostgresSaver").toList, ("reference/checkpoints/#langgraph.checkpoint.postgres.PostgresSaver").toList),
      (("Pregel").toList, ("reference/pregel/").toList),
      (("Pregel.stream").toList, ("reference/pregel/#langgraph.pregel.Pregel.stream").toList),
      (("pre_model_hook").toList, ("reference/prebuilt/#langgraph.prebuilt.chat_agent_executor.create_react_agent").toList),
      (("protocol").toList, ("reference/checkpoints/#langgraph.checkpoint.serde.base.SerializerProtocol").toList),
      (("Reference").toList, ("https://python.langchain.com/api_reference/").toList),
      (("Runtime").toList, ("reference/runtime/#langgraph.runtime.Runtime").toList),
      (("Send").toList, ("reference/types/#langgraph.types.Send").toList),
      (("SerializerProtocol").toList, ("reference/checkpoints/#langgraph.checkpoint.serde.base.SerializerProtocol").toList),
      (("SqliteSaver").toList, ("reference/checkpoints/#langgraph.checkpoint.sqlite.SqliteSaver").toList),
      (("START").toList, ("reference/constants/#langgraph.constants.START").toList),
      (("CompiledStateGraph.stream").toList, ("reference/graphs/#langgraph.graph.state.CompiledStateGraph.stream").toList),
      (("task").toList, ("reference/func/#langgraph.func.task").toList),
      (("Topic").toList, ("reference/channels/#langgraph.channels.Topic").toList),
      (("update_state").toList, ("reference/graphs/#langgraph.graph.state.CompiledStateGraph.update_state").toList)
    ] }

/-- Entry 2 of `MANUAL_LINK_MAPS` from `link_map.py` (transcribed in full). -/
def manualMap2 : LinkMap :=
  { host := ("https://langchain-ai.github.io/langgraphjs/").toList,
    scope := ("js").toList,
    links := [
      (("Auth").toList, ("reference/classes/sdk_auth.Auth.html").toList),
      (("StateGraph").toList, ("reference/classes/langgraph.StateGraph.html").toList),
      (("add_conditional_edges").toList, ("/reference/classes/langgraph.StateGraph.html#addConditionalEdges").toList),
      (("add_edge").toList, ("reference/classes/langgraph.StateGraph.html#addEdge").toList),
      (("add_node").toList, ("reference/classes/langgraph.StateGraph.html#addNode").toList),
      (("add_messages").toList, ("reference/modules/langgraph.html#addMessages").toList),
      (("astream_events").toList, ("https://v03.api.js.langchain.com/types/_langchain_core.tracers_log_stream.StreamEvent.html").toList),
      (("BaseCheckpointSaver").toList, ("reference/classes/checkpoint.BaseCheckpointSaver.html").toList),
      (("BaseLoader").toList, ("https://v03.api.js.langchain.com/classes/_langchain_core.document_loaders_base.BaseDocumentLoader.html").toList),
      (("BaseStore").toList, ("reference/classes/checkpoint.BaseStore.html").toList),
      (("BaseStore.put").toList, ("reference/classes/checkpoint.BaseStore.html#put").toList),
      (("BinaryOperatorAggregate").toList, ("reference/classes/langgraph.BinaryOperatorAggregate.html").toList),
      (("client.runs.stream").toList, ("reference/classes/sdk_client.RunsClient.html#stream").toList),
      (("client.runs.wait").toList, ("reference/classes/sdk_client.RunsClient.html#wait").toList),
      (("client.threads.get_history").toList, ("reference/classes/sdk_client.ThreadsClient.html#getHistory").toList),
      (("client.threads.update_state").toList, ("reference/classes/sdk_client.ThreadsClient.html#updateState").toList),
      (("Command").toList, ("reference/classes/langgraph.Command.html").toList),
      (("CompiledStateGraph").toList, ("reference/classes/langgraph.CompiledStateGraph.html").toList),
      (("create_react_agent").toList, ("reference/functions/langgraph_prebuilt.createReactAgent.html").toList),
      (("create_supervisor").toList, ("reference/functions/langgraph_supervisor.createSupervisor.html").toList),
      (("entrypoint.final").toList, ("reference/functions/langgraph.entrypoint.html#final").toList),
      (("entrypoint").toList, ("reference/functions/langgraph.entrypoint.html").toList),
      (("getContextVariable").toList, ("https://v03.api.js.langchain.com/functions/_langchain_core.context.getContextVariable.html").toList),
      (("get_state_history").toList, ("reference/classes/langgraph.CompiledStateGraph.html#getStateHistory").toList),
      (("HumanInterrupt").toList, ("reference/interfaces/langgraph_prebuilt.HumanInterrupt.html").toList),
      (("init_chat_model").toList, ("https://v03.api.js.langchain.com/functions/langchain.chat_models_universal.initChatModel.html").toList),
      (("interrupt").toList, ("reference/functions/langgraph.interrupt-2.html").toList),
      (("CompiledStateGraph.invoke").toList, ("reference/classes/langgraph.CompiledStateGraph.html#invoke").toList),
      (("langgraph.json").toList, ("cloud/reference/cli/#configuration-file").toList),
      (("MemorySaver").toList, ("reference/classes/checkpoint.MemorySaver.html").toList),
      (("messagesStateReducer").toList, ("reference/functions/langgraph.messagesStateReducer.html").toList),
      (("PostgresSaver").toList, ("reference/classes/checkpoint_postgres.PostgresSaver.html").toList),
      (("Pregel").toList, ("reference/classes/langgraph.Pregel.html").toList),
      (("Pregel.stream").toList, ("reference/classes/langgraph.Pregel.html#stream").toList),
      (("pre_model_hook").toList, ("reference/functions/langgraph_prebuilt.createReactAgent.html").toList),
      (("protocol").toList, ("reference/interfaces/checkpoint.SerializerProtocol.html").toList),
      (("Send").toList, ("reference/classes/langgraph.Send.html").toList),
      (("SerializerProtocol").toList, ("reference/interfaces/checkpoint.SerializerProtocol.html").toList),
      (("SqliteSaver").toList, ("reference/classes/checkpoint_sqlite.SqliteSaver.html").toList),
      (("START").toList, ("reference/variables/langgraph.START.html").toList),
      (("CompiledStateGraph.stream").toList, ("reference/classes/langgraph.CompiledStateGraph.html#stream").toList),
      (("task").toList, ("reference/functions/langgraph.task.html").toList),
      (("update_state").toList, ("reference/classes/langgraph.CompiledStateGraph.html#updateState").toList)
    ] }

/-- Entry 3 of `MANUAL_LINK_MAPS` from `link_map.py` (transcribed in full). -/
def manualMap3 : LinkMap :=
  { host := ("https://v03.api.js.langchain.com/").toList,
    scope := ("js").toList,
    links := [
      (("AIMessage").toList, ("classes/_langchain_core.messages_ai_message.AIMessage.html").toList),
      (("AIMessageChunk").toList, ("classes/_langchain_core.messages_ai_message.AIMessageChunk.html").toList),
      (("BaseChatModel.invoke").toList, ("classes/_langchain_core.language_models_chat_models.BaseChatModel.html#invoke").toList),
      (("BaseChatModel.stream").toList, ("classes/_langchain_core.language_models_chat_models.BaseChatModel.html#stream").toList),
      (("BaseChatModel.streamEvents").toList, ("classes/_langchain_core.language_models_chat_models.BaseChatModel.html#streamEvents").toList),
      (("BaseChatModel.batch").toList, ("classes/_langchain_core.language_models_chat_models.BaseChatModel.html#batch").toList),
      (("BaseChatModel.bindTools").toList, ("classes/langchain.chat_models_universal.ConfigurableModel.html#bindTools").toList),
      (("Document").toList, ("classes/_langchain_core.documents.Document.html").toList),
      (("initChatModel").toList, ("functions/langchain.chat_models_universal.initChatModel.html").toList),
      (("RunnableConfig").toList, ("interfaces/_langchain_core.runnables.RunnableConfig.html").toList),
      (("Reference").toList, ("index.html").toList),
      (("Embeddings").toList, ("classes/_langchain_core.embeddings.Embeddings.html").toList)
    ] }

/-- Entry 4 of `MANUAL_LINK_MAPS` from `link_map.py` (transcribed in full). -/
def manualMap4 : LinkMap :=
  { host := ("https://reference.langchain.com/python/").toList,
    scope := ("python").toList,
    links := [
      (("langchain").toList, ("langchain/langchain").toList),
      (("langchain.agents").toList, ("langchain/agents").toList),
      (("langchain.messages").toList, ("langchain/messages").toList),
      (("langchain.tools").toList, ("langchain/tools").toList),
      (("langchain.chat_models").toList, ("langchain/models").toList),
      (("langchain.embeddings").toList, ("langchain/embeddings").toList),
      (("langchain_core").toList, ("langchain_core/").toList),
      (("create_agent").toList, ("langchain/agents/#langchain.agents.create_agent").toList),
      (("create_agent(tools)").toList, ("langchain/agents/#langchain.agents.create_agent(tools)").toList),
      (("system_prompt").toList, ("langchain/agents/#langchain.agents.create_agent(system_prompt)").toList),
      (("AgentState").toList, ("langchain/agents/#langchain.agents.AgentState").toList),
      (("AgentMiddleware").toList, ("langchain/middleware/#langchain.agents.middleware.AgentMiddleware").toList),
      (("state_schema").toList, ("langchain/middleware/#langchain.agents.middleware.AgentMiddleware.state_schema").toList),
      (("PIIMiddleware").toList, ("langchain/middleware/#langchain.agents.middleware.PIIMiddleware").toList),
      (("SummarizationMiddleware").toList, ("langchain/middleware/#langchain.agents.middleware.SummarizationMiddleware").toList),
      (("HumanInTheLoopMiddleware").toList, ("langchain/middleware/#langchain.agents.middleware.HumanInTheLoopMiddleware").toList),
      (("AIMessage").toList, ("langchain/messages/#langchain.messages.AIMessage").toList),
      (("AIMessageChunk").toList, ("langchain/messages/#langchain.messages.AIMessageChunk").toList),
      (("ToolMessage").toList, ("langchain/messages/#langchain.messages.ToolMessage").toList),
      (("SystemMessage").toList, ("langchain/messages/#langchain.messages.SystemMessage").toList),
      (("trim_messages").toList, ("langchain/messages/#langchain.messages.trim_messages").toList),
      (("BaseMessage").toList, ("langchain_core/language_models/#langchain_core.messages.BaseMessage").toList),
      (("BaseMessage(content)").toList, ("langchain_core/language_models/#langchain_core.messages.BaseMessage.content").toList),
      (("BaseMessage(content_blocks)").toList, ("langchain_core/language_models/#langchain_core.messages.BaseMessage.content_blocks").toList),
      (("ContentBlock").toList, ("langchain/messages/#langchain.messages.ContentBlock").toList),
      (("TextContentBlock").toList, ("langchain/messages/#langchain.messages.TextContentBlock").toList),
      (("ReasoningContentBlock").toList, ("langchain/messages/#langchain.messages.ReasoningContentBlock").toList),
      (("NonStandardContentBlock").toList, ("langchain/messages/#langchain.messages.NonStandardContentBlock").toList),
      (("ImageContentBlock").toList, ("langchain/messages/#langchain.messages.ImageContentBlock").toList),
      (("VideoContentBlock").toList, ("langchain/messages/#langchain.messages.VideoContentBlock").toList),
      (("AudioContentBlock").toList, ("langchain/messages/#langchain.messages.AudioContentBlock").toList),
      (("PlainTextContentBlock").toList, ("langchain/messages/#langchain.messages.PlainTextContentBlock").toList),
      (("FileContentBlock").toList, ("langchain/messages/#langchain.messages.FileContentBlock").toList),
      (("ToolCall").toList, ("langchain/messages/#langchain.messages.ToolCall").toList),
      (("ToolCallChunk").toList, ("langchain/messages/#langchain.messages.ToolCallChunk").toList),
      (("ServerToolCall").toList, ("langchain/messages/#langchain.messages.ServerToolCall").toList),
      (("ServerToolCallChunk").toList, ("langchain/messages/#langchain.messages.ServerToolCallChunk").toList),
      (("ServerToolResult").toList, ("langchain/messages/#langchain.messages.ServerToolResult").toList),
      (("langchain-openai").toList, ("integrations/langchain_openai").toList),
      (("ChatOpenAI").toList, ("integrations/langchain_openai/#langchain_openai.ChatOpenAI").toList),
      (("AzureChatOpenAI").toList, ("integrations/langchain_openai/#langchain_openai.AzureChatOpenAI").toList),
      (("init_chat_model").toList, ("langchain/models/#langchain.chat_models.init_chat_model").toList),
      (("init_chat_model(model_provider)").toList, ("langchain/models/#langchain.chat_models.init_chat_model(model_provider)").toList),
      (("BaseChatModel").toList, ("langchain_core/language_models/#langchain_core.language_models.chat_models.BaseChatModel").toList),
      (("BaseChatModel.invoke").toList, ("langchain_core/language_models/#langchain_core.language_models.chat_models.BaseChatModel.invoke").toList),
      (("BaseChatModel.stream").toList, ("langchain_core/language_models/#langchain_core.language_models.chat_models.BaseChatModel.stream").toList),
      (("BaseChatModel.astream_events").toList, ("langchain_core/language_models/#langchain_core.language_models.chat_models.BaseChatModel.astream_events").toList),
      (("BaseChatModel.batch").toList, ("langchain_core.language_models.chat_models.BaseChatModel.batch").toList),
      (("BaseChatModel.batch_as_completed").toList, ("langchain_core.language_models.chat_models.BaseChatModel.batch_as_completed").toList),
      (("BaseChatModel.bind_tools").toList, ("langchain_core/language_models/#langchain_core.language_models.chat_models.BaseChatModel.bind_tools").toList),
      (("@tool").toList, ("langchain/tools/#langchain.tools.tool").toList),
      (("BaseTool").toList, ("langchain/tools/#langchain.tools.BaseTool").toList),
      (("init_embeddings").toList, ("langchain_core/embeddings/#langchain_core.embeddings.embeddings.Embeddings").toList),
      (("Embeddings").toList, ("langchain_core/embeddings/#langchain_core.embeddings.embeddings.Embeddings").toList),
      (("Document").toList, ("langchain_core/documents/#langchain_core.documents.base.Document").toList),
      (("RunnableConfig").toList, ("langchain_core/runnables/#langchain_core.runnables.RunnableConfig").toList)
    ] }

/-- Entry 5 of `MANUAL_LINK_MAPS` from `link_map.py` (transcribed in full). -/
def manualMap5 : LinkMap :=
  { host := ("https://reference.langchain.com/javascript/").toList,
    scope := ("js").toList,
    links := [
      (("Runtime").toList, ("interfaces/_langchain_langgraph.index.Runtime.html").toList),
      (("tool").toList, ("functions/_langchain_core.tools.tool.html").toList),
      (("ToolNode").toList, ("classes/langchain.index.ToolNode.html").toList),
      (("UsageMetadata").toList, ("types/_langchain_core.messages.UsageMetadata.html").toList)
    ] }

/-- `MANUAL_LINK_MAPS` from `link_map.py`. -/
def MANUAL_LINK_MAPS : List LinkMap :=
  [manualMap1, manualMap2, manualMap3, manualMap4, manualMap5]

/-- `AUTO_GENERATED_LINK_MAPS` in the repository as given (the
`except ImportError` branch of `link_map.py`). -/
def AUTO_GENERATED_LINK_MAPS : List LinkMap := []

/-- The grouping loop body of `_merge_link_maps`: ensure a dict exists for
the `(host, scope)` key, then `update` it with the map's links. -/
def mergeStep (merged : List ((List Char × List Char) × List (List Char × List Char)))
    (lm : LinkMap) :
    List ((List Char × List Char) × List (List Char × List Char)) :=
  let key := (lm.host, lm.scope)
  alistSet merged key (dictUpdate ((alistGet merged key).getD []) lm.links)

/-- `_merge_link_maps`: group auto-generated maps, overlay manual maps, and
convert back to a list of `LinkMap` (in the merged dict's insertion order). -/
def merge_link_maps (manual_maps auto_maps : List LinkMap) : List LinkMap :=
  let merged := (manual_maps.foldl mergeStep (auto_maps.foldl mergeStep []))
  merged.map fun kl => ⟨kl.1.1, kl.1.2, kl.2⟩

/-- `LINK_MAPS`, parameterised by the auto-generated maps. -/
def linkMapsWith (auto_maps : List LinkMap) : List LinkMap :=
  merge_link_maps MANUAL_LINK_MAPS auto_maps

/-- `LINK_MAPS` as computed in the repository (`AUTO_GENERATED_LINK_MAPS`
being empty). -/
def LINK_MAPS : List LinkMap := linkMapsWith AUTO_GENERATED_LINK_MAPS

/-- The per-map loop body of `_enumerate_links`: write every link of a map
whose scope matches, prefixing the host unless the value already starts with
`http`. -/
def enumStep (scope : List Char) (result : List (List Char × List Char))
    (lm : LinkMap) : List (List Char × List Char) :=
  if lm.scope = scope then
    lm.links.foldl
      (fun r kv =>
        alistSet r kv.1
          (if (("http").toList).isPrefixOf kv.2 then kv.2 else lm.host ++ kv.2))
      result
  else result

/-- `_enumerate_links`, over a given list of link maps. -/
def enumerateLinksOf (maps : List LinkMap) (scope : List Char) :
    List (List Char × List Char) :=
  maps.foldl (enumStep scope) []

/-- `_enumerate_links` over `LINK_MAPS` built from the given auto maps. -/
def enumerate_links (auto_maps : List LinkMap) (scope : List Char) :
    List (List Char × List Char) :=
  enumerateLinksOf (linkMapsWith auto_maps) scope

/-- `SCOPE_LINK_MAPS`, parameterised by the auto-generated maps. -/
def scopeLinkMapsWith (auto_maps : List LinkMap) :
    List (List Char × List (List Char × List Char)) :=
  [(("python").toList, enumerate_links auto_maps (("python").toList)),
   (("js").toList, enumerate_links auto_maps (("js").toList))]

/-- `SCOPE_LINK_MAPS` as computed in the repository. -/
def SCOPE_LINK_MAPS : List (List Char × List (List Char × List Char)) :=
  scopeLinkMapsWith AUTO_GENERATED_LINK_MAPS

instance exceptDecEq {ε α : Type} [DecidableEq ε] [DecidableEq α] :
    DecidableEq (Except ε α) := fun x y =>
  match x, y with
  | .ok a, .ok b =>
    if h : a = b then isTrue (by rw [h]) else isFalse (by simp [h])
  | .error a, .error b =>
    if h : a = b then isTrue (by rw [h]) else isFalse (by simp [h])
  | .ok _, .error _ => isFalse (by simp)
  | .error _, .ok _ => isFalse (by simp)

/-!
## Concrete documents and auxiliary predicates used in the claims
-/

/-- The source document used for claims C3 and C4: a python export block
followed by a ruby export block. -/
def c3doc : List Char :=
  ("```python export\na = 1\n```\n```ruby export\nb\n```\n").toList

/-- The source document used for claim C4 alone: one ruby export block. -/
def c4doc : List Char := ("```ruby export\nputs 1\n```\n").toList

/-- The source document used for claim C9: three consecutive python blocks,
the second and third declaring `merge-before`. -/
def c9doc : List Char :=
  ("```python export\na = 1\n```\n```python export merge-before\nb = 2\n```\n" ++
   "```py export merge-before\nc = 3\n```\n").toList

/-- Whether the code-block match (if any) at position `i` of `text` is free
of the `ignore` attribute. -/
def noIgnoredBlockAt (text : List Char) (i : Nat) : Bool :=
  match codeBlockMatchAt (text.drop i) with
  | some (_, _, attrs, _) =>
    !(hasSub (('i' :: 'g' :: 'n' :: 'o' :: 'r' :: 'e' :: [])) (pyStrip attrs))
  | none => true

/-- The counterexample text for C6: no `:::` fence at all, but an
`ignore`-marked code block, which the pass strips. -/
def c6bad : List Char := ("```python ignore\nx\n```\n").toList

/-- C6 witness text: already-resolved output with an exported (non-ignored)
code block and no fences. -/
def c6good : List Char := ("intro\n```python export\nx = 1\n```\n").toList

/-- Whether the constant token (if any) matched at position `i` of `text`
names a constant that is absent from the map. -/
def unknownConstantAt (cmap : List (List Char × List Char))
    (text : List Char) (i : Nat) : Bool :=
  match constantTokenAt (prevAt none text i) (text.drop i) with
  | some (_, name) => (alistGet cmap name).isNone
  | none => true

/-- The resolved manual URL for label `StateGraph` in scope `python`. -/
def stateGraphURL : List Char :=
  ("https://langchain-ai.github.io/langgraph/reference/graphs/#langgraph.graph.StateGraph").toList

/-- An auto-generated registry on which the claim as stated fails: it reuses
the `(host, scope)` grouping key of the python manual map (leaving that
group's position early in the merged order) and adds a later different-host
map that also defines `StateGraph`. -/
def autoEvil : List LinkMap :=
  [{ host := ("https://langchain-ai.github.io/langgraph/").toList,
     scope := ("python").toList, links := [] },
   { host := ("https://evil.example/").toList, scope := ("python").toList,
     links := [((("StateGraph").toList), (("sg").toList))] }]

/-- The document `:::lang\ncontent\n:::`: a single conditional block with no
indentation, a one-line content and no surrounding text. -/
def condBlockText (lang content : List Char) : List Char :=
  ':' :: ':' :: ':' ::
    (lang ++ '\n' :: (content ++ '\n' :: ':' :: ':' :: ':' :: []))

/-!
## General lemmas about the `re.sub` scanner
-/

theorem reSubGo_nil (m : Matcher) (fuel : Nat) (prev : Option Char) :
    reSubGo m fuel prev [] = [] := by
  cases fuel <;> rfl

@[simp] theorem prevAt_zero (prev : Option Char) (s : List Char) :
    prevAt prev s 0 = prev := rfl

theorem prevAt_cons (prev : Option Char) (c : Char) (rest : List Char)
    (i : Nat) : prevAt prev (c :: rest) (i + 1) = prevAt (some c) rest i := by
  unfold prevAt
  cases i with
  | zero => simp
  | succ j => simp

theorem prevAt_drop (prev : Option Char) (s : List Char) (k i : Nat)
    (hk : 1 ≤ k) : prevAt (s[k - 1]?) (s.drop k) i = prevAt prev s (k + i) := by
  unfold prevAt
  cases i with
  | zero =>
    rw [if_pos rfl, if_neg (by omega : ¬ k + 0 = 0)]
    norm_num
  | succ j =>
    rw [if_neg (by omega : ¬ j + 1 = 0), if_neg (by omega : ¬ k + (j + 1) = 0),
      List.getElem?_drop]
    congr 1

/-- If the matcher declines at every position, the scan is the identity. -/
theorem reSubGo_eq_self_of_none (m : Matcher) :
    ∀ (s : List Char) (fuel : Nat) (prev : Option Char),
      s.length ≤ fuel →
      (∀ i, i < s.length → m (prevAt prev s i) (s.drop i) = none) →
      reSubGo m fuel prev s = s := by
  intro s
  induction s with
  | nil => intro fuel prev _ _; exact reSubGo_nil m fuel prev
  | cons c rest ih =>
    intro fuel prev hfuel h
    cases fuel with
    | zero => simp at hfuel
    | succ f =>
      have h0 := h 0 (by simp)
      simp only [prevAt_zero, List.drop_zero] at h0
      simp only [reSubGo, h0]
      have : reSubGo m f (some c) rest = rest := by
        apply ih
        · simpa using hfuel
        · intro i hi
          have := h (i + 1) (by simpa using Nat.succ_lt_succ hi)
          rwa [prevAt_cons, List.drop_succ_cons] at this
      rw [this]

/-- Shifting the keep-premise of `reSubGo_eq_self_of_keep` past `k + 1`
consumed characters. -/
theorem keepPremiseShift (m : Matcher) (prev : Option Char) (c : Char)
    (rest : List Char) (k : Nat)
    (h : ∀ i, i < (c :: rest).length → ∀ n repl,
        m (prevAt prev (c :: rest) i) ((c :: rest).drop i) = some (n, repl) →
        repl = ((c :: rest).drop i).take n) :
    ∀ i, i < ((c :: rest).drop (k + 1)).length → ∀ n repl,
      m (prevAt ((c :: rest)[k]?) ((c :: rest).drop (k + 1)) i)
        (((c :: rest).drop (k + 1)).drop i) = some (n, repl) →
      repl = (((c :: rest).drop (k + 1)).drop i).take n := by
  intro i hi n repl hm
  have hpa := prevAt_drop prev (c :: rest) (k + 1) i (by omega)
  simp only [Nat.add_sub_cancel] at hpa
  rw [hpa, List.drop_drop] at hm
  rw [List.drop_drop]
  have hik : k + 1 + i < (c :: rest).length := by
    simp only [List.length_drop, List.length_cons] at hi
    simp only [List.length_cons]
    omega
  exact h (k + 1 + i) hik n repl hm

/-- If every match's replacement is the matched text itself, the scan is the
identity. -/
theorem reSubGo_eq_self_of_keep (m : Matcher) :
    ∀ (fuel : Nat) (prev : Option Char) (s : List Char),
      s.length ≤ fuel →
      (∀ i, i < s.length → ∀ n repl,
          m (prevAt prev s i) (s.drop i) = some (n, repl) →
          repl = (s.drop i).take n) →
      reSubGo m fuel prev s = s := by
  intro fuel
  induction fuel with
  | zero => intro prev s _ _; rfl
  | succ f ih =>
    intro prev s hfuel h
    match s with
    | [] => rfl
    | c :: rest =>
      have hlen0 : ((c :: rest).drop (0 + 1)).length ≤ f := by
        simp only [List.length_drop, List.length_cons] at hfuel ⊢
        omega
      cases hm : m prev (c :: rest) with
      | none =>
        simp only [reSubGo, hm]
        have hih := ih ((c :: rest)[0]?) ((c :: rest).drop (0 + 1)) hlen0
          (keepPremiseShift m prev c rest 0 h)
        simp only [List.getElem?_cons_zero, List.drop_succ_cons,
          List.drop_zero] at hih
        rw [hih]
      | some nr =>
        obtain ⟨n, repl⟩ := nr
        have hrepl := h 0 (by simp) n repl (by simpa using hm)
        simp only [List.drop_zero] at hrepl
        cases n with
        | zero =>
          simp only [reSubGo, hm, hrepl, List.take_zero, List.nil_append]
          have hih := ih ((c :: rest)[0]?) ((c :: rest).drop (0 + 1)) hlen0
            (keepPremiseShift m prev c rest 0 h)
          simp only [List.getElem?_cons_zero, List.drop_succ_cons,
            List.drop_zero] at hih
          rw [hih]
        | succ k =>
          simp only [reSubGo, hm, hrepl]
          have hlenk : ((c :: rest).drop (k + 1)).length ≤ f := by
            simp only [List.length_drop, List.length_cons] at hfuel ⊢
            omega
          have hih := ih ((c :: rest)[k]?) ((c :: rest).drop (k + 1)) hlenk
            (keepPremiseShift m prev c rest k h)
          simp only [List.drop_succ_cons] at hih
          rw [hih, ← List.drop_succ_cons, List.take_append_drop]

/-- A single firing step of the scan. -/
theorem reSubGo_step_fire (m : Matcher) (f : Nat) (prev : Option Char)
    (c : Char) (rest : List Char) (n : Nat) (repl : List Char)
    (h : m prev (c :: rest) = some (n + 1, repl)) :
    reSubGo m (f + 1) prev (c :: rest) =
      repl ++ reSubGo m f ((c :: rest)[n]?) (rest.drop n) := by
  simp only [reSubGo, h]

/-- A single declining step of the scan. -/
theorem reSubGo_step_none (m : Matcher) (f : Nat) (prev : Option Char)
    (c : Char) (rest : List Char) (h : m prev (c :: rest) = none) :
    reSubGo m (f + 1) prev (c :: rest) = c :: reSubGo m f (some c) rest := by
  simp only [reSubGo, h]

/-- `reSubGo_step_none` with the fuel in subtraction form. -/
theorem reSubGo_step_none_sub (m : Matcher) (fuel : Nat) (prev : Option Char)
    (c : Char) (rest : List Char) (hf : 1 ≤ fuel)
    (h : m prev (c :: rest) = none) :
    reSubGo m fuel prev (c :: rest) =
      c :: reSubGo m (fuel - 1) (some c) rest := by
  cases fuel with
  | zero => omega
  | succ f =>
    rw [reSubGo_step_none m f prev c rest h]
    simp

/-- The scan passes unchanged over a prefix at whose positions the matcher
declines, and continues on the remainder with the prefix's last character as
the lookbehind character. -/
theorem reSubGo_append_of_none (m : Matcher) :
    ∀ (a : List Char) (fuel : Nat) (prev : Option Char) (b : List Char),
      (a ++ b).length ≤ fuel →
      (∀ i, i < a.length → m (prevAt prev (a ++ b) i) ((a ++ b).drop i) = none) →
      reSubGo m fuel prev (a ++ b) =
        a ++ reSubGo m (fuel - a.length) (a.getLast? <|> prev) b := by
  intro a
  induction a with
  | nil => intro fuel prev b _ _; simp
  | cons c a' ih =>
    intro fuel prev b hfuel h
    cases fuel with
    | zero => simp at hfuel
    | succ f =>
      have h0 := h 0 (by simp)
      simp only [prevAt_zero, List.drop_zero, List.cons_append] at h0
      rw [List.cons_append, reSubGo_step_none m f prev c (a' ++ b) h0]
      rw [ih f (some c) b (by simpa using hfuel) ?_]
      · have hlast : ((c :: a').getLast? <|> prev) = (a'.getLast? <|> some c) := by
          cases a' with
          | nil => simp
          | cons d t =>
            rw [List.getLast?_cons_cons]
            cases hgl : (d :: t).getLast? with
            | none => simp [List.getLast?_eq_none_iff] at hgl
            | some x => simp
        simp [List.length_cons, Nat.succ_sub_succ, hlast]
      · intro i hi
        have := h (i + 1) (by simpa using Nat.succ_lt_succ hi)
        rwa [List.cons_append, prevAt_cons, List.drop_succ_cons] at this

theorem cons_getElem?_len (c : Char) (t : List Char) :
    (c :: t)[t.length]? = (c :: t).getLast? := by
  induction t generalizing c with
  | nil => rfl
  | cons d t' ih => rw [List.getLast?_cons_cons]; simpa using ih d

/-- One firing step of the scan: a match of length `t.length` at the current
position replaces `t` and the scan resumes after it. -/
theorem reSubGo_fire (m : Matcher) (fuel : Nat) (prev : Option Char)
    (t b repl : List Char) (ht : t ≠ []) (hf : 1 ≤ fuel)
    (hm : m prev (t ++ b) = some (t.length, repl)) :
    reSubGo m fuel prev (t ++ b) =
      repl ++ reSubGo m (fuel - 1) (t.getLast? <|> prev) b := by
  match t, ht with
  | c :: t', _ =>
    cases fuel with
    | zero => omega
    | succ f =>
      have hm' : m prev (c :: (t' ++ b)) = some (t'.length + 1, repl) := by
        simpa using hm
      rw [List.cons_append,
        reSubGo_step_fire m f prev c (t' ++ b) t'.length repl hm']
      have h1 : (t' ++ b).drop t'.length = b := List.drop_left t' b
      have h2 : (c :: (t' ++ b))[t'.length]? = (c :: t')[t'.length]? := by
        rw [show (c :: (t' ++ b)) = (c :: t') ++ b by simp]
        rw [List.getElem?_append]
        rw [if_pos (by simp)]
      have h3 : ((c :: t').getLast? <|> prev) = (c :: t').getLast? := by
        cases hgl : (c :: t').getLast? with
        | none => simp [List.getLast?_eq_none_iff] at hgl
        | some x => rfl
      rw [h1, h2, cons_getElem?_len, h3]
      simp

/-!
## Substring lemmas and matcher shape lemmas
-/

theorem isPrefixOf_iff_append {p s : List Char} :
    p.isPrefixOf s = true ↔ ∃ t, s = p ++ t := by
  induction p generalizing s with
  | nil => simp [List.isPrefixOf]
  | cons c p' ih =>
    cases s with
    | nil => simp [List.isPrefixOf]
    | cons d s' =>
      simp only [List.isPrefixOf, Bool.and_eq_true, beq_iff_eq, ih,
        List.cons_append, List.cons_eq_cons, exists_and_left]
      exact ⟨fun ⟨a, b⟩ => ⟨a.symm, b⟩, fun ⟨a, b⟩ => ⟨a.symm, b⟩⟩

theorem hasSub_of_isPrefixOf {pat s : List Char}
    (h : pat.isPrefixOf s = true) : hasSub pat s = true := by
  cases s with
  | nil =>
    cases pat with
    | nil => rfl
    | cons c r => simp [List.isPrefixOf] at h
  | cons c rest => simp [hasSub, h]

theorem hasSub_drop {pat s : List Char} (i : Nat)
    (h : hasSub pat (s.drop i) = true) : hasSub pat s = true := by
  induction s generalizing i with
  | nil => simpa using h
  | cons c rest ih =>
    cases i with
    | zero => simpa using h
    | succ j =>
      simp only [List.drop_succ_cons] at h
      simp [hasSub, ih j h]

theorem hasSub_append_right {pat b : List Char} (a : List Char)
    (h : hasSub pat b = true) : hasSub pat (a ++ b) = true := by
  induction a with
  | nil => simpa using h
  | cons c a' ih => simp [hasSub, ih]

theorem hasSub_cons_of_tail {pat rest : List Char} (c : Char)
    (h : hasSub pat rest = true) : hasSub pat (c :: rest) = true := by
  simp [hasSub, h]

theorem count_colon_of_hasSub {s : List Char}
    (h : hasSub ([':', ':', ':']) s = true) : 3 ≤ s.count ':' := by
  induction s with
  | nil => simp [hasSub] at h
  | cons c rest ih =>
    rw [show hasSub ([':', ':', ':']) (c :: rest) =
        ([':', ':', ':'].isPrefixOf (c :: rest) || hasSub ([':', ':', ':']) rest)
      from rfl] at h
    rcases Bool.or_eq_true_iff.mp h with hp | hr
    · obtain ⟨t, ht⟩ := isPrefixOf_iff_append.mp hp
      rw [ht]
      simp [List.count_cons, List.count_append]
    · have := ih hr
      rw [List.count_cons]
      omega

theorem count_colon_drop_le (s : List Char) (i : Nat) :
    (s.drop i).count ':' ≤ s.count ':' :=
  (List.drop_sublist i s).count_le ':'

theorem drop_takeWhile_len (p : Char → Bool) (s : List Char) :
    s.drop (s.takeWhile p).length = s.dropWhile p := by
  induction s with
  | nil => rfl
  | cons c rest ih =>
    by_cases h : p c
    · simp [List.takeWhile_cons, List.dropWhile_cons, h, ih]
    · simp [List.takeWhile_cons, List.dropWhile_cons, h]

theorem splitFirstLine_eq {s line rest' : List Char}
    (h : splitFirstLine s = some (line, rest')) :
    s = line ++ '\n' :: rest' := by
  unfold splitFirstLine at h
  split at h
  · rename_i d r hdw
    split at h
    · rename_i hd
      simp only [Option.some.injEq, Prod.mk.injEq] at h
      obtain ⟨h1, h2⟩ := h
      subst h1; subst h2; subst hd
      conv_lhs => rw [← List.takeWhile_append_dropWhile (fun c => c != '\n') s]
      rw [hdw]
    · simp at h
  · simp at h

theorem condCloseAt_hasSub {indent rest : List Char} {n : Nat}
    (h : condCloseAt indent rest = some n) :
    hasSub ([':', ':', ':']) rest = true := by
  unfold condCloseAt at h
  split at h
  · split at h
    · rename_i hpre
      rw [← drop_takeWhile_len] at hpre
      exact hasSub_drop _ (hasSub_drop _ (hasSub_of_isPrefixOf hpre))
    · exact absurd h (by simp)
  · exact absurd h (by simp)

theorem lazyContent_hasSub {close : List Char → Option Nat} {pat : List Char}
    (hc : ∀ r n, close r = some n → hasSub pat r = true) :
    ∀ (fuel : Nat) (rest c : List Char) (n : Nat),
      lazyContent close fuel rest = some (c, n) → hasSub pat rest = true := by
  intro fuel
  induction fuel with
  | zero =>
    intro rest c n h
    unfold lazyContent at h
    cases hcl : close rest with
    | some k => exact hc rest k hcl
    | none => rw [hcl] at h; simp at h
  | succ f ih =>
    intro rest c n h
    unfold lazyContent at h
    cases hcl : close rest with
    | some k => exact hc rest k hcl
    | none =>
      rw [hcl] at h
      cases hsp : splitFirstLine rest with
      | none => rw [hsp] at h; simp at h
      | some lr =>
        obtain ⟨line, rest2⟩ := lr
        rw [hsp] at h
        simp only [Option.map_eq_some'] at h
        obtain ⟨⟨c2, n2⟩, hrec, _⟩ := h
        have := ih rest2 c2 n2 hrec
        rw [splitFirstLine_eq hsp]
        exact hasSub_append_right line (hasSub_cons_of_tail '\n' this)

theorem blockTail_hasSub {close : List Char → Option Nat} {pat : List Char}
    (hc : ∀ r n, close r = some n → hasSub pat r = true)
    {s : List Char} {r : Nat × List Char × Nat}
    (h : blockTail close s = some r) : hasSub pat s = true := by
  simp only [blockTail] at h
  obtain ⟨i, _, hf⟩ := List.exists_of_findSome?_eq_some h
  simp only [Option.map_eq_some'] at hf
  obtain ⟨⟨c, n⟩, hlc, _⟩ := hf
  exact hasSub_drop (i + 1) (lazyContent_hasSub hc _ _ c n hlc)

/-- A match of the conditional block pattern contains at least six colons:
three in the opening fence and three in the closing fence. -/
theorem condBlockMatchAt_count {prev : Option Char} {s : List Char}
    {r : Nat × List Char × List Char} (h : condBlockMatchAt prev s = some r) :
    6 ≤ s.count ':' := by
  unfold condBlockMatchAt at h
  split at h
  · simp at h
  · split at h
    · rename_i s2 hs2
      split at h
      · simp at h
      · simp only [Option.map_eq_some'] at h
        obtain ⟨⟨w, content, cl⟩, hbt, _⟩ := h
        have h3 : 3 ≤ (s2.drop (s2.takeWhile isWordChar).length).count ':' :=
          count_colon_of_hasSub
            (blockTail_hasSub (fun r n hc => condCloseAt_hasSub hc) hbt)
        have h4 := count_colon_drop_le s2 (s2.takeWhile isWordChar).length
        have h6 := count_colon_drop_le s (s.takeWhile isIndentChar).length
        rw [hs2] at h6
        simp only [List.count_cons] at h6
        simp only [beq_self_eq_true, if_true] at h6
        omega
    · simp at h

/-- A match of the conditional block pattern contains the substring `:::`. -/
theorem condBlockMatchAt_hasSub {prev : Option Char} {s : List Char}
    {r : Nat × List Char × List Char} (h : condBlockMatchAt prev s = some r) :
    hasSub ([':', ':', ':']) s = true := by
  unfold condBlockMatchAt at h
  split at h
  · simp at h
  · split at h
    · rename_i s2 hs2
      apply hasSub_drop (s.takeWhile isIndentChar).length
      rw [hs2]
      exact hasSub_of_isPrefixOf (by simp [List.isPrefixOf])
    · simp at h

/-- A match of the code block pattern contains the substring `​`````. -/
theorem codeBlockMatchAt_hasSub {s : List Char}
    {r : Nat × List Char × List Char × List Char}
    (h : codeBlockMatchAt s = some r) :
    hasSub (['`', '`', '`']) s = true := by
  unfold codeBlockMatchAt at h
  split at h
  · rename_i s2 hs2
    apply hasSub_drop (s.takeWhile isIndentChar).length
    rw [hs2]
    exact hasSub_of_isPrefixOf (by simp [List.isPrefixOf])
  · simp at h

theorem colonUnescapeMatcher_hasSub {p : Option Char} {s : List Char}
    {r : Nat × List Char} (h : colonUnescapeMatcher p s = some r) :
    hasSub ([':', ':', ':']) s = true := by
  unfold colonUnescapeMatcher at h
  split at h
  · rename_i t _
    exact hasSub_cons_of_tail '\\'
      (hasSub_of_isPrefixOf (by simp [List.isPrefixOf]))
  · simp at h

theorem constantUnescapeMatcher_shape {p : Option Char} {s : List Char}
    {r : Nat × List Char} (h : constantUnescapeMatcher p s = some r) :
    ∃ t, s = '\\' :: '$' :: '[' :: t := by
  unfold constantUnescapeMatcher at h
  split at h
  · exact ⟨_, rfl⟩
  · simp at h

theorem constantTokenAt_shape {p : Option Char} {s : List Char}
    {r : Nat × List Char} (h : constantTokenAt p s = some r) :
    p ≠ some '\\' ∧ ∃ t, s = '$' :: '[' :: t := by
  unfold constantTokenAt at h
  split at h
  · simp at h
  · rename_i hp
    refine ⟨hp, ?_⟩
    split at h
    · exact ⟨_, rfl⟩
    · simp at h

/-- If every match of `m` contains the substring `pat` but the text does not,
the substitution is the identity. -/
theorem reSub_eq_self_of_shape (m : Matcher) (pat : List Char)
    (hshape : ∀ p s r, m p s = some r → hasSub pat s = true)
    (s : List Char) (h : hasSub pat s = false) : reSub m s = s := by
  apply reSubGo_eq_self_of_none m s s.length none le_rfl
  intro i hi
  cases hm : m (prevAt none s i) (s.drop i) with
  | none => rfl
  | some r =>
    have := hasSub_drop i (hshape _ _ _ hm)
    rw [h] at this
    exact absurd this (by simp)

/-!
## Lemmas about snippet grouping and export
-/

/-- One grouping step appends the new block at the end of the flattened
block sequence, either inside the last snippet or as a new snippet. -/
theorem reduce_code_blocks_join (acc : List CodeSnippet) (b : CodeBlock) :
    ((reduce_code_blocks acc b).map CodeSnippet.code_blocks).flatten =
      (acc.map CodeSnippet.code_blocks).flatten ++ [b] := by
  unfold reduce_code_blocks
  cases hl : acc.getLast? with
  | none =>
    rw [List.getLast?_eq_none_iff.mp hl]
    simp
  | some prev =>
    have hacc : acc.dropLast ++ [prev] = acc :=
      List.dropLast_append_getLast? prev hl
    have hflat : (List.map CodeSnippet.code_blocks acc).flatten =
        (List.map CodeSnippet.code_blocks acc.dropLast).flatten ++
          prev.code_blocks := by
      conv_lhs => rw [← hacc]
      simp
    split
    · rename_i prev2 heq
      obtain rfl : prev = prev2 := by injection heq
      split
      · rw [hflat]
        simp
      · rw [hflat, ← hacc]
        simp
    · rename_i heq
      exact absurd heq (by simp)

/-- Folding blocks into snippets preserves the flattened block sequence. -/
theorem foldl_reduce_join (blocks : List CodeBlock) :
    ∀ acc : List CodeSnippet,
      ((blocks.foldl reduce_code_blocks acc).map
          CodeSnippet.code_blocks).flatten =
        (acc.map CodeSnippet.code_blocks).flatten ++ blocks := by
  induction blocks with
  | nil => intro acc; simp
  | cons b rest ih =>
    intro acc
    rw [List.foldl_cons, ih (reduce_code_blocks acc b),
      reduce_code_blocks_join]
    simp

/-- Every write produced by `_export_file` is for a language whose
per-language directory exists. -/
theorem exportLoop_language_mem (dirs : List (List Char)) (rel : List Char) :
    ∀ (l : List (Nat × CodeSnippet)) (ws : List SnippetWrite),
      exportLoop dirs rel l = .ok ws →
      ∀ w ∈ ws, dirs.contains w.language = true := by
  intro l
  induction l with
  | nil =>
    intro ws h w hw
    unfold exportLoop at h
    simp only [Except.ok.injEq] at h
    rw [← h] at hw
    simp at hw
  | cons isn rest ih =>
    intro ws h w hw
    obtain ⟨idx, sn⟩ := isn
    unfold exportLoop at h
    split at h
    · rename_i hdir
      cases hst : stringify_code_snippet sn (some rel) true with
      | none => rw [hst] at h; simp at h
      | some out =>
        rw [hst] at h
        cases hrec : exportLoop dirs rel rest with
        | error e => rw [hrec] at h; simp [Except.map] at h
        | ok ws' =>
          rw [hrec] at h
          simp only [Except.map, Except.ok.injEq] at h
          rw [← h] at hw
          rcases List.mem_cons.mp hw with hw1 | hw2
          · rw [hw1]
            exact hdir
          · exact ih ws' hrec w hw2
    · exact ih ws h w hw

/-!
## Lemmas for discharging per-position matcher premises
-/

theorem hasSub_mem {pat s : List Char} (h : hasSub pat s = true) :
    ∀ c ∈ pat, c ∈ s := by
  induction s with
  | nil =>
    intro c hc
    cases pat with
    | nil => simp at hc
    | cons d r => simp [hasSub] at h
  | cons d rest ih =>
    intro c hc
    rw [show hasSub pat (d :: rest) =
        (pat.isPrefixOf (d :: rest) || hasSub pat rest) from rfl] at h
    rcases Bool.or_eq_true_iff.mp h with hp | hr
    · obtain ⟨t, ht⟩ := isPrefixOf_iff_append.mp hp
      rw [ht]
      exact List.mem_append_left t hc
    · exact List.mem_cons_of_mem d (ih hr c hc)

theorem hasSub_eq_false_of_not_mem {pat s : List Char} {c : Char}
    (hc : c ∈ pat) (hs : c ∉ s) : hasSub pat s = false := by
  cases hhs : hasSub pat s with
  | false => rfl
  | true => exact absurd (hasSub_mem hhs c hc) hs

theorem condBlockMatcher_eq_some {target : List Char} {p : Option Char}
    {s : List Char} {r : Nat × List Char}
    (h : condBlockMatcher target p s = some r) :
    ∃ r', condBlockMatchAt p s = some r' := by
  unfold condBlockMatcher at h
  cases hm : condBlockMatchAt p s with
  | none => rw [hm] at h; simp at h
  | some r' => exact ⟨r', rfl⟩

theorem ignoredBlockMatcher_eq_some {p : Option Char} {s : List Char}
    {r : Nat × List Char} (h : ignoredBlockMatcher p s = some r) :
    ∃ r', codeBlockMatchAt s = some r' := by
  unfold ignoredBlockMatcher at h
  cases hm : codeBlockMatchAt s with
  | none => rw [hm] at h; simp at h
  | some r' => exact ⟨r', rfl⟩

theorem condBlockMatcher_hasSub {target : List Char} {p : Option Char}
    {s : List Char} {r : Nat × List Char}
    (h : condBlockMatcher target p s = some r) :
    hasSub ([':', ':', ':']) s = true := by
  obtain ⟨r', hr'⟩ := condBlockMatcher_eq_some h
  exact condBlockMatchAt_hasSub hr'

theorem ignoredBlockMatcher_hasSub {p : Option Char} {s : List Char}
    {r : Nat × List Char} (h : ignoredBlockMatcher p s = some r) :
    hasSub (['`', '`', '`']) s = true := by
  obtain ⟨r', hr'⟩ := ignoredBlockMatcher_eq_some h
  exact codeBlockMatchAt_hasSub hr'

/-!
## Claims
-/

/-- C3 counterexample: the claim predicts that when some snippet's
per-language directory is missing (the ruby one here), the whole file is
skipped and nothing is written; but `_export_file` still writes the python
snippet. -/
theorem C3_counterexample :
    ((extract_code_snippets c3doc).any
      (fun sn => !((["python".toList] : List (List Char)).contains
        sn.language))) = true ∧
    export_file [("python").toList] (("doc.mdx").toList) c3doc ≠ .ok [] ∧
    export_file [("python").toList] (("doc.mdx").toList) c3doc =
      .ok [⟨("python").toList, ("python_0.py").toList,
        ("# File: doc.mdx\n# Line: 0, Column: 0\na = 1").toList⟩] := by
  refine ⟨by decide, by decide, by decide⟩

/-- C3 (amended): a snippet whose per-language output directory does not
exist is skipped individually — every write that does happen is into an
existing per-language directory — but the rest of the file is still
exported: in the counterexample document the ruby snippet is dropped while
the python snippet is still written. -/
theorem C3_per_snippet_skip :
    (∀ (dirs : List (List Char)) (rel content : List Char)
        (ws : List SnippetWrite),
      export_file dirs rel content = .ok ws →
      ∀ w ∈ ws, dirs.contains w.language = true) ∧
    export_file [("python").toList] (("doc.mdx").toList) c3doc =
      .ok [⟨("python").toList, ("python_0.py").toList,
        ("# File: doc.mdx\n# Line: 0, Column: 0\na = 1").toList⟩] := by
  constructor
  · intro dirs rel content ws h
    exact exportLoop_language_mem dirs rel _ ws h
  · decide

/-- C3 witness: the amended claim instantiated at the counterexample
document. -/
theorem C3_per_snippet_skip_witness :
    ∃ ws, export_file [("python").toList] (("doc.mdx").toList) c3doc = .ok ws ∧
      ∀ w ∈ ws, (([("python").toList] : List (List Char)).contains
        w.language) = true := by
  refine ⟨_, C3_per_snippet_skip.2, ?_⟩
  intro w hw
  exact C3_per_snippet_skip.1 [("python").toList] (("doc.mdx").toList) c3doc _
    C3_per_snippet_skip.2 w hw

/-- C4: a ruby export block is still recorded as a snippet and its file
extension falls back to `.txt`; but serializing it raises `KeyError` (the
comment-marker table is indexed directly), so the export call errors out
instead of writing a `.txt` file — the code contradicts the documented
fallback. -/
theorem C4_unknown_language_raises :
    ((extract_code_snippets c4doc).map CodeSnippet.language) =
      [("ruby").toList] ∧
    ((alistGet language_file_assoc (("ruby").toList)).getD
      ((".txt").toList)) = (".txt").toList ∧
    ((extract_code_snippets c4doc).head?.bind
      (fun sn => stringify_code_snippet sn (some (("doc.mdx").toList)) true)) =
      none ∧
    export_file [("ruby").toList] (("doc.mdx").toList) c4doc =
      .error (("ruby").toList) := by
  refine ⟨by decide, by decide, by decide, by decide⟩

/-- C9: snippet grouping is the left fold of `reduce_code_blocks`, which
preserves the flattened document-order block sequence; and on three
consecutive python blocks where blocks 2 and 3 declare `merge-before`, it
produces exactly one snippet holding all three blocks in order. -/
theorem C9_snippet_grouping :
    (∀ content : List Char,
      (((extract_code_snippets content).map CodeSnippet.code_blocks).flatten =
        extract_code_blocks content)) ∧
    ((extract_code_snippets c9doc).map
      (fun sn => (sn.language, sn.code_blocks.map CodeBlock.content))) =
      [((("python").toList),
        [("a = 1\n").toList, ("b = 2\n").toList, ("c = 3\n").toList])] := by
  constructor
  · intro content
    unfold extract_code_snippets
    rw [foldl_reduce_join]
    simp
  · decide

theorem colonUnescapeMatcher_head {p : Option Char} {s : List Char}
    {r : Nat × List Char} (h : colonUnescapeMatcher p s = some r) :
    s.head? = some '\\' := by
  unfold colonUnescapeMatcher at h
  split at h
  · rfl
  · simp at h

/-- If every match of `m` starts with the character `ch` but `ch` does not
occur in the text, the scan is the identity. -/
theorem reSubGo_eq_self_of_head (m : Matcher) (ch : Char)
    (hshape : ∀ p s r, m p s = some r → s.head? = some ch)
    (fuel : Nat) (prev : Option Char) (s : List Char)
    (hfuel : s.length ≤ fuel) (h : ch ∉ s) : reSubGo m fuel prev s = s := by
  apply reSubGo_eq_self_of_none m s fuel prev hfuel
  intro i hi
  cases hm : m (prevAt prev s i) (s.drop i) with
  | none => rfl
  | some r =>
    have hh := hshape _ _ _ hm
    have hmem : ch ∈ s.drop i := by
      cases hd : s.drop i with
      | nil => rw [hd] at hh; simp at hh
      | cons d t =>
        rw [hd] at hh
        simp only [List.head?_cons, Option.some.injEq] at hh
        subst hh
        exact List.mem_cons_self d t
    exact absurd ((List.drop_sublist i s).subset hmem) h

/-- If every match of `m` starts with the character `ch` but `ch` does not
occur in the text, the substitution is the identity. -/
theorem reSub_eq_self_of_head (m : Matcher) (ch : Char)
    (hshape : ∀ p s r, m p s = some r → s.head? = some ch)
    (s : List Char) (h : ch ∉ s) : reSub m s = s :=
  reSubGo_eq_self_of_head m ch hshape s.length none s le_rfl h

/-- The scan passes unchanged over a prefix free of the character every match
of `m` starts with. -/
theorem reSubGo_append_of_head (m : Matcher) (ch : Char)
    (hshape : ∀ p s r, m p s = some r → s.head? = some ch)
    (a b : List Char) (fuel : Nat) (prev : Option Char)
    (hfuel : (a ++ b).length ≤ fuel) (ha : ch ∉ a) :
    reSubGo m fuel prev (a ++ b) =
      a ++ reSubGo m (fuel - a.length) (a.getLast? <|> prev) b := by
  apply reSubGo_append_of_none m a fuel prev b hfuel
  intro i hi
  cases hm : m (prevAt prev (a ++ b) i) ((a ++ b).drop i) with
  | none => rfl
  | some r =>
    have hh := hshape _ _ _ hm
    rw [List.head?_drop] at hh
    rw [List.getElem?_append] at hh
    rw [if_pos hi] at hh
    exact absurd (List.getElem?_mem hh) ha

theorem not_mem_fence_text {c : Char} {pre lang rest : List Char}
    (hpre : c ∉ pre) (hlang : c ∉ lang) (hrest : c ∉ rest)
    (hc1 : c ≠ ':') (hc2 : c ≠ '\n') :
    c ∉ pre ++ ':' :: ':' :: ':' :: (lang ++ '\n' :: rest) := by
  intro hm
  simp only [List.mem_append, List.mem_cons] at hm
  tauto

/-- The block-pattern pass cannot fire anywhere in a text whose only colons
are the three of one unclosed opening fence. -/
theorem condPass_id_of_unclosed (target pre lang rest : List Char)
    (hpre : ':' ∉ pre) (hlang : ':' ∉ lang) (hrest : ':' ∉ rest) :
    reSub (condBlockMatcher target)
      (pre ++ ':' :: ':' :: ':' :: (lang ++ '\n' :: rest)) =
      pre ++ ':' :: ':' :: ':' :: (lang ++ '\n' :: rest) := by
  have hcount :
      (pre ++ ':' :: ':' :: ':' :: (lang ++ '\n' :: rest)).count ':' = 3 := by
    simp [List.count_append, List.count_cons, List.count_eq_zero.mpr hpre,
      List.count_eq_zero.mpr hlang, List.count_eq_zero.mpr hrest]
  apply reSubGo_eq_self_of_none _ _ _ _ le_rfl
  intro i hi
  cases hm : condBlockMatcher target
      (prevAt none (pre ++ ':' :: ':' :: ':' :: (lang ++ '\n' :: rest)) i)
      ((pre ++ ':' :: ':' :: ':' :: (lang ++ '\n' :: rest)).drop i) with
  | none => rfl
  | some r =>
    obtain ⟨r', hr'⟩ := condBlockMatcher_eq_some hm
    have h6 := condBlockMatchAt_count hr'
    have hle := count_colon_drop_le
      (pre ++ ':' :: ':' :: ':' :: (lang ++ '\n' :: rest)) i
    rw [hcount] at hle
    omega

/-- C5: a text consisting of an opening conditional fence `:::lang` with no
closing fence anywhere after it (formalised: the only colons of the text are
the fence's three) is not matched by the block pattern and passes through the
block-resolution pass unchanged, for any target language; when the text also
contains no backslash and no backtick, the whole conditional-rendering pass
returns it unchanged. -/
theorem C5_unclosed_fence :
    (∀ target pre lang rest : List Char,
      ':' ∉ pre → ':' ∉ lang → ':' ∉ rest →
      reSub (condBlockMatcher target)
        (pre ++ ':' :: ':' :: ':' :: (lang ++ '\n' :: rest)) =
        pre ++ ':' :: ':' :: ':' :: (lang ++ '\n' :: rest)) ∧
    (∀ target pre lang rest : List Char,
      (target = ("python").toList ∨ target = ("js").toList) →
      ':' ∉ pre → ':' ∉ lang → ':' ∉ rest →
      '\\' ∉ pre → '\\' ∉ lang → '\\' ∉ rest →
      '`' ∉ pre → '`' ∉ lang → '`' ∉ rest →
      apply_conditional_rendering target
        (pre ++ ':' :: ':' :: ':' :: (lang ++ '\n' :: rest)) =
        some (pre ++ ':' :: ':' :: ':' :: (lang ++ '\n' :: rest))) := by
  constructor
  · exact condPass_id_of_unclosed
  · intro target pre lang rest htar h1 h2 h3 h4 h5 h6 h7 h8 h9
    unfold apply_conditional_rendering
    rw [if_pos htar]
    rw [condPass_id_of_unclosed target pre lang rest h1 h2 h3]
    rw [reSub_eq_self_of_head colonUnescapeMatcher '\\'
      (fun p s r h => colonUnescapeMatcher_head h) _
      (not_mem_fence_text h4 h5 h6 (by decide) (by decide))]
    rw [reSub_eq_self_of_shape ignoredBlockMatcher (['`', '`', '`'])
      (fun p s r h => ignoredBlockMatcher_hasSub h) _
      (hasSub_eq_false_of_not_mem (List.mem_cons_self '`' _)
        (not_mem_fence_text h7 h8 h9 (by decide) (by decide)))]

/-- C5 witness: the unclosed fence `x :::python\nabc\ndef\n` is returned
unchanged by the full conditional-rendering pass for target `python`. -/
theorem C5_unclosed_fence_witness :
    apply_conditional_rendering (("python").toList)
      ((("x ").toList) ++ ':' :: ':' :: ':' ::
        ((("python").toList) ++ '\n' :: (("abc\ndef\n").toList))) =
      some ((("x ").toList) ++ ':' :: ':' :: ':' ::
        ((("python").toList) ++ '\n' :: (("abc\ndef\n").toList))) :=
  C5_unclosed_fence.2 (("python").toList) (("x ").toList) (("python").toList)
    (("abc\ndef\n").toList) (Or.inl rfl) (by decide) (by decide) (by decide)
    (by decide) (by decide) (by decide) (by decide) (by decide) (by decide)

/-- C6 counterexample: `c6bad` contains no `:::` fence, yet the
conditional-rendering pass does not return it unchanged — it strips the
`ignore`-marked code block. -/
theorem C6_counterexample :
    hasSub ([':', ':', ':']) c6bad = false ∧
    apply_conditional_rendering (("python").toList) c6bad =
      some (("\n").toList) ∧
    some (("\n").toList) ≠ some c6bad := by
  refine ⟨by decide, by decide, by decide⟩

/-- C6 (amended): the conditional-rendering pass is the identity on every
text that contains no `:::` fence *and* no code block whose attributes
contain `ignore` (the pass also strips such blocks, so they must be excluded
for idempotence). -/
theorem C6_idempotent_on_resolved (target text : List Char)
    (htar : target = ("python").toList ∨ target = ("js").toList)
    (hnc : hasSub ([':', ':', ':']) text = false)
    (hig : ∀ i, i < text.length → noIgnoredBlockAt text i = true) :
    apply_conditional_rendering target text = some text := by
  unfold apply_conditional_rendering
  rw [if_pos htar]
  have p1 : reSub (condBlockMatcher target) text = text :=
    reSub_eq_self_of_shape _ _ (fun p s r h => condBlockMatcher_hasSub h)
      text hnc
  have p2 : reSub colonUnescapeMatcher text = text :=
    reSub_eq_self_of_shape _ _ (fun p s r h => colonUnescapeMatcher_hasSub h)
      text hnc
  have p3 : reSub ignoredBlockMatcher text = text := by
    apply reSubGo_eq_self_of_keep _ _ _ _ le_rfl
    intro i hi n repl hm
    unfold ignoredBlockMatcher at hm
    cases hcb : codeBlockMatchAt (text.drop i) with
    | none => rw [hcb] at hm; simp at hm
    | some r =>
      obtain ⟨n', lang, attrs, code⟩ := r
      rw [hcb] at hm
      simp only [Option.map_some', Option.some.injEq, Prod.mk.injEq] at hm
      obtain ⟨hn, hr⟩ := hm
      have hig' := hig i hi
      unfold noIgnoredBlockAt at hig'
      rw [hcb] at hig'
      simp only [Bool.not_eq_true'] at hig'
      rw [hig'] at hr
      rw [← hr, hn]
      simp
  rw [p1, p2, p3]

/-- C6 witness: the amended idempotence instantiated at `c6good`. -/
theorem C6_idempotent_witness :
    apply_conditional_rendering (("python").toList) c6good = some c6good :=
  C6_idempotent_on_resolved (("python").toList) c6good (Or.inl rfl)
    (by decide) (by decide)

/-!
## Lemmas about the constant-substitution matchers
-/

theorem takeWhile_append_stop (p : Char → Bool) (k : List Char) (d : Char)
    (t : List Char) (hall : ∀ c ∈ k, p c = true) (hd : p d = false) :
    (k ++ d :: t).takeWhile p = k := by
  induction k with
  | nil => simp [List.takeWhile_cons, hd]
  | cons c k' ih =>
    have hc : p c = true := hall c (List.mem_cons_self c k')
    simp only [List.cons_append, List.takeWhile_cons, hc, if_true]
    rw [ih (fun c2 hc' => hall c2 (List.mem_cons_of_mem c hc'))]

theorem constantTokenAt_head {p : Option Char} {s : List Char}
    {r : Nat × List Char} (h : constantTokenAt p s = some r) :
    s.head? = some '$' := by
  obtain ⟨_, t, ht⟩ := constantTokenAt_shape h
  rw [ht]
  rfl

theorem constantMatcher_head {cmap : List (List Char × List Char)}
    {p : Option Char} {s : List Char} {r : Nat × List Char}
    (h : constantMatcher cmap p s = some r) : s.head? = some '$' := by
  unfold constantMatcher at h
  cases hm : constantTokenAt p s with
  | none => rw [hm] at h; simp at h
  | some r' => exact constantTokenAt_head hm

theorem constantTokenAt_blocked (s : List Char) :
    constantTokenAt (some '\\') s = none := by
  unfold constantTokenAt
  rw [if_pos rfl]

theorem constantMatcher_blocked (cmap : List (List Char × List Char))
    (s : List Char) : constantMatcher cmap (some '\\') s = none := by
  unfold constantMatcher
  rw [constantTokenAt_blocked]
  rfl

/-- `CONSTANT_PATTERN` matches a well-formed unescaped token `$[k]`,
capturing `k`. -/
theorem constantTokenAt_token (prev : Option Char) (k post : List Char)
    (hprev : prev ≠ some '\\') (hk : k ≠ []) (hkr : ']' ∉ k) :
    constantTokenAt prev ('$' :: '[' :: (k ++ ']' :: post)) =
      some (k.length + 3, k) := by
  unfold constantTokenAt
  rw [if_neg hprev]
  have htw : (k ++ ']' :: post).takeWhile (fun c => c != ']') = k := by
    apply takeWhile_append_stop
    · intro c hc
      simp only [bne_iff_ne, ne_eq, decide_eq_true_eq]
      intro hcc
      rw [hcc] at hc
      exact hkr hc
    · simp
  simp only [htw, List.isEmpty_eq_true, hk, if_false, List.drop_left]

theorem constantMatcher_fire (cmap : List (List Char × List Char))
    (prev : Option Char) (k v post : List Char)
    (hprev : prev ≠ some '\\') (hk : k ≠ []) (hkr : ']' ∉ k)
    (hlook : alistGet cmap k = some v) :
    constantMatcher cmap prev ('$' :: '[' :: (k ++ ']' :: post)) =
      some (k.length + 3, v) := by
  unfold constantMatcher
  rw [constantTokenAt_token prev k post hprev hk hkr]
  simp [hlook]

theorem constantUnescapeMatcher_head {p : Option Char} {s : List Char}
    {r : Nat × List Char} (h : constantUnescapeMatcher p s = some r) :
    s.head? = some '\\' := by
  obtain ⟨t, ht⟩ := constantUnescapeMatcher_shape h
  rw [ht]
  rfl

theorem constantUnescapeMatcher_hasSub {p : Option Char} {s : List Char}
    {r : Nat × List Char} (h : constantUnescapeMatcher p s = some r) :
    hasSub (['\\', '$', '[']) s = true := by
  obtain ⟨t, ht⟩ := constantUnescapeMatcher_shape h
  rw [ht]
  exact hasSub_of_isPrefixOf (by simp [List.isPrefixOf])

/-- The `\$[`-unescape scan passes unchanged over a prefix that contains no
`$` and does not abut a new `\$[` window at its boundary with the rest. -/
theorem unescPass_append (a b : List Char) (fuel : Nat) (prev : Option Char)
    (hfuel : (a ++ b).length ≤ fuel) (ha : '$' ∉ a)
    (hbound : a.getLast? ≠ some '\\' ∨ b.head? ≠ some '$') :
    reSubGo constantUnescapeMatcher fuel prev (a ++ b) =
      a ++ reSubGo constantUnescapeMatcher (fuel - a.length)
        (a.getLast? <|> prev) b := by
  apply reSubGo_append_of_none _ a fuel prev b hfuel
  intro i hi
  cases hm : constantUnescapeMatcher (prevAt prev (a ++ b) i)
      ((a ++ b).drop i) with
  | none => rfl
  | some r =>
    exfalso
    obtain ⟨t, ht⟩ := constantUnescapeMatcher_shape hm
    have h1 : (a ++ b)[i + 1]? = some '$' := by
      rw [← List.getElem?_drop, ht]
      rfl
    rcases Nat.lt_or_ge (i + 1) a.length with hlt | hge
    · rw [List.getElem?_append, if_pos hlt] at h1
      exact ha (List.getElem?_mem h1)
    · have hieq : i + 1 = a.length := by omega
      have h0 : (a ++ b)[i]? = some '\\' := by
        have hh : (List.drop i (a ++ b)).head? = some '\\' := by
          rw [ht]
          rfl
        rwa [List.head?_drop] at hh
      rw [List.getElem?_append, if_pos hi] at h0
      rcases hbound with hb1 | hb2
      · apply hb1
        have hgl : a.getLast? = a[i]? := by
          cases a with
          | nil => rw [List.length_nil] at hi; omega
          | cons c t' =>
            rw [← cons_getElem?_len c t']
            congr 1
            simp only [List.length_cons] at hieq
            omega
        rw [hgl]
        exact h0
      · apply hb2
        rw [List.getElem?_append, if_neg (by omega), hieq] at h1
        rw [List.head?_eq_getElem?]
        simpa using h1

/-!
## Claims C7, C8, C10: constant substitution
-/

/-- The known-token substitution equation shared by claims C8 and C10:
a well-formed `$[k]` token with `k ↦ v` in the map is replaced by `v`,
and `v` is spliced in verbatim (the scan resumes after the token, never
inside the replacement). -/
theorem replaceConstants_known (cmap : List (List Char × List Char))
    (pre k v post : List Char)
    (hpre : '$' ∉ pre) (hlast : pre.getLast? ≠ some '\\')
    (hk : k ≠ []) (hkr : ']' ∉ k)
    (hlook : alistGet cmap k = some v) (hv : '\\' ∉ v)
    (hpost1 : '$' ∉ post) (hpost2 : '\\' ∉ post) :
    replaceConstantsWith cmap (pre ++ '$' :: '[' :: (k ++ ']' :: post)) =
      pre ++ v ++ post := by
  have htok : ('$' :: '[' :: (k ++ ']' :: post)) =
      ('$' :: '[' :: (k ++ [']'])) ++ post := by simp
  have hsub : reSub (constantMatcher cmap)
      (pre ++ '$' :: '[' :: (k ++ ']' :: post)) = pre ++ v ++ post := by
    unfold reSub
    rw [reSubGo_append_of_head (constantMatcher cmap) '$'
      (fun p s r h => constantMatcher_head h) pre _ _ none le_rfl hpre]
    have hfire : constantMatcher cmap (pre.getLast? <|> none)
        (('$' :: '[' :: (k ++ [']'])) ++ post) =
        some (('$' :: '[' :: (k ++ [']'])).length, v) := by
      rw [← htok]
      rw [show ('$' :: '[' :: (k ++ [']'])).length = k.length + 3 by
        simp <;> omega]
      apply constantMatcher_fire cmap _ k v post _ hk hkr hlook
      rw [Option.orElse_none]
      exact hlast
    rw [htok]
    rw [reSubGo_fire (constantMatcher cmap) _ _ ('$' :: '[' :: (k ++ [']']))
      post v (by simp) (by simp) hfire]
    rw [reSubGo_eq_self_of_head (constantMatcher cmap) '$'
      (fun p s r h => constantMatcher_head h) _ _ post (by simp <;> omega)
      hpost1]
    simp
  have hvp : '\\' ∉ v ++ post := by
    intro hm
    rcases List.mem_append.mp hm with h | h
    · exact hv h
    · exact hpost2 h
  unfold replaceConstantsWith
  rw [hsub]
  unfold reSub
  rw [show pre ++ v ++ post = pre ++ (v ++ post) by simp]
  rw [unescPass_append pre (v ++ post) _ none le_rfl hpre (Or.inl hlast)]
  rw [reSubGo_eq_self_of_head constantUnescapeMatcher '\\'
    (fun p s r h => constantUnescapeMatcher_head h) _ _ (v ++ post)
    (by simp) hvp]

/-- C7: an escaped token `\$[x]` is never substituted — whatever the
constants map, the substitution pass copies it verbatim (the lookbehind
rejects the escaped `$`) and the unescape pass then renders it as the
literal `$[x]`, which therefore appears in the output. -/
theorem C7_escaped_token_preserved (cmap : List (List Char × List Char))
    (pre x post : List Char)
    (hpre : '$' ∉ pre) (hx1 : '$' ∉ x) (hx2 : ']' ∉ x) (hx3 : '\\' ∉ x) :
    ∃ rest, replaceConstantsWith cmap
      (pre ++ '\\' :: '$' :: '[' :: (x ++ ']' :: post)) =
      pre ++ '$' :: '[' :: (x ++ ']' :: rest) := by
  have hnd1 : '$' ∉ pre ++ ['\\'] := by
    intro hm
    rcases List.mem_append.mp hm with h | h
    · exact hpre h
    · simp only [List.mem_singleton] at h
      exact absurd h.symm (by decide)
  have hnd2 : '$' ∉ '[' :: (x ++ [']']) := by
    intro hm
    rcases List.mem_cons.mp hm with h | h
    · exact absurd h.symm (by decide)
    · rcases List.mem_append.mp h with h2 | h2
      · exact hx1 h2
      · simp only [List.mem_singleton] at h2
        exact absurd h2.symm (by decide)
  have hnb : '\\' ∉ x ++ [']'] := by
    intro hm
    rcases List.mem_append.mp hm with h | h
    · exact hx3 h
    · simp only [List.mem_singleton] at h
      exact absurd h.symm (by decide)
  have hsub : ∃ X, reSub (constantMatcher cmap)
      (pre ++ '\\' :: '$' :: '[' :: (x ++ ']' :: post)) =
      pre ++ '\\' :: '$' :: '[' :: (x ++ ']' :: X) := by
    unfold reSub
    rw [show pre ++ '\\' :: '$' :: '[' :: (x ++ ']' :: post) =
      (pre ++ ['\\']) ++ '$' :: ('[' :: (x ++ [']']) ++ post) by simp]
    rw [reSubGo_append_of_head (constantMatcher cmap) '$'
      (fun p s r h => constantMatcher_head h) (pre ++ ['\\']) _ _ none
      le_rfl hnd1]
    rw [List.getLast?_concat, Option.some_orElse]
    rw [reSubGo_step_none_sub (constantMatcher cmap) _ (some '\\') '$' _
      (by simp <;> omega) (constantMatcher_blocked cmap _)]
    rw [show ('[' :: (x ++ [']']) ++ post) = ('[' :: (x ++ [']'])) ++ post
      by simp]
    rw [reSubGo_append_of_head (constantMatcher cmap) '$'
      (fun p s r h => constantMatcher_head h) ('[' :: (x ++ [']'])) post
      _ (some '$') (by simp <;> omega) hnd2]
    generalize reSubGo (constantMatcher cmap) _ _ post = X
    exact ⟨X, by simp⟩
  obtain ⟨X, hX⟩ := hsub
  unfold replaceConstantsWith
  rw [hX]
  unfold reSub
  rw [show pre ++ '\\' :: '$' :: '[' :: (x ++ ']' :: X) =
    pre ++ (['\\', '$', '['] ++ (x ++ ']' :: X)) by simp]
  rw [unescPass_append pre _ _ none le_rfl hpre (Or.inr (by simp))]
  rw [reSubGo_fire constantUnescapeMatcher _ _ ['\\', '$', '[']
    (x ++ ']' :: X) ['$', '['] (by simp) (by simp <;> omega) rfl]
  rw [show (x ++ ']' :: X) = (x ++ [']']) ++ X by simp]
  rw [reSubGo_append_of_head constantUnescapeMatcher '\\'
    (fun p s r h => constantUnescapeMatcher_head h) (x ++ [']']) X _ _
    (by simp <;> omega) hnb]
  generalize reSubGo constantUnescapeMatcher _ _ X = R
  exact ⟨R, by simp⟩

/-- C7 witness: with `x` itself a known constant, `\$[x]` still renders as
the literal `$[x]`. -/
theorem C7_escaped_token_witness :
    ∃ rest, replaceConstantsWith
      [((("example").toList), (("value").toList))]
      ((("Literal ").toList) ++ '\\' :: '$' :: '[' ::
        ((("example").toList) ++ ']' :: ((" token.").toList))) =
      (("Literal ").toList) ++ '$' :: '[' ::
        ((("example").toList) ++ ']' :: rest) :=
  C7_escaped_token_preserved
    [((("example").toList), (("value").toList))]
    (("Literal ").toList) (("example").toList) ((" token.").toList)
    (by decide) (by decide) (by decide) (by decide)

/-- C8: a known constant token `$[k]` is replaced by its mapped value; and
on a text all of whose constant tokens are unknown (and which contains no
escaped `\$[`), `replace_constants` is the identity (the unknown tokens are
preserved verbatim; the Python function only logs and never raises). -/
theorem C8_known_and_unknown_constants :
    (∀ (cmap : List (List Char × List Char)) (pre k v post : List Char),
      '$' ∉ pre → pre.getLast? ≠ some '\\' → k ≠ [] → ']' ∉ k →
      alistGet cmap k = some v → '\\' ∉ v → '$' ∉ post → '\\' ∉ post →
      replaceConstantsWith cmap (pre ++ '$' :: '[' :: (k ++ ']' :: post)) =
        pre ++ v ++ post) ∧
    (∀ (cmap : List (List Char × List Char)) (text : List Char),
      (∀ i, i < text.length → unknownConstantAt cmap text i = true) →
      hasSub (['\\', '$', '[']) text = false →
      replaceConstantsWith cmap text = text) := by
  constructor
  · intro cmap pre k v post h1 h2 h3 h4 h5 h6 h7 h8
    exact replaceConstants_known cmap pre k v post h1 h2 h3 h4 h5 h6 h7 h8
  · intro cmap text hall hnesc
    unfold replaceConstantsWith
    have hsub : reSub (constantMatcher cmap) text = text := by
      apply reSubGo_eq_self_of_keep _ _ _ _ le_rfl
      intro i hi n repl hm
      unfold constantMatcher at hm
      cases htk : constantTokenAt (prevAt none text i) (text.drop i) with
      | none => rw [htk] at hm; simp at hm
      | some r =>
        obtain ⟨n', name⟩ := r
        rw [htk] at hm
        simp only [Option.map_some', Option.some.injEq, Prod.mk.injEq] at hm
        obtain ⟨hn, hr⟩ := hm
        have hux := hall i hi
        unfold unknownConstantAt at hux
        rw [htk] at hux
        simp only [Option.isNone_iff_eq_none] at hux
        rw [hux] at hr
        simp only [Option.getD_none] at hr
        rw [← hr, hn]
    rw [hsub]
    exact reSub_eq_self_of_shape constantUnescapeMatcher (['\\', '$', '['])
      (fun p s r h => constantUnescapeMatcher_hasSub h) text hnesc

/-- C8 witness: both parts at the inputs of the repository's unit tests —
`$[example-constant]` with the test map substitutes, and
`$[missing-constant]` with the same map is untouched. -/
theorem C8_constants_witness :
    replaceConstantsWith
      [((("example-constant").toList), (("example-value").toList))]
      ((("Use ").toList) ++ '$' :: '[' ::
        ((("example-constant").toList) ++ ']' :: ((" here.").toList))) =
      (("Use ").toList) ++ (("example-value").toList) ++ ((" here.").toList) ∧
    replaceConstantsWith
      [((("example-constant").toList), (("example-value").toList))]
      ((("Unknown $[missing-constant] value.").toList)) =
      (("Unknown $[missing-constant] value.").toList) :=
  ⟨C8_known_and_unknown_constants.1
      [((("example-constant").toList), (("example-value").toList))]
      (("Use ").toList) (("example-constant").toList)
      (("example-value").toList) ((" here.").toList)
      (by decide) (by decide) (by decide) (by decide) (by decide) (by decide)
      (by decide) (by decide),
   C8_known_and_unknown_constants.2
      [((("example-constant").toList), (("example-value").toList))]
      ((("Unknown $[missing-constant] value.").toList))
      (by decide) (by decide)⟩

/-- C10: substitution is single-pass — when the value of the known constant
`k` is itself a token `$[j]` with `j` also known (mapped to `w`), the output
contains the literal `$[j]`, not `w`: replacement text is never re-scanned. -/
theorem C10_no_reexpansion (cmap : List (List Char × List Char))
    (pre k j w post : List Char)
    (hpre : '$' ∉ pre) (hlast : pre.getLast? ≠ some '\\')
    (hk : k ≠ []) (hkr : ']' ∉ k)
    (hlook : alistGet cmap k = some ('$' :: '[' :: (j ++ [']'])))
    (hj1 : ']' ∉ j) (hj2 : '\\' ∉ j)
    (hlookj : alistGet cmap j = some w)
    (hpost1 : '$' ∉ post) (hpost2 : '\\' ∉ post) :
    replaceConstantsWith cmap (pre ++ '$' :: '[' :: (k ++ ']' :: post)) =
      pre ++ '$' :: '[' :: (j ++ ']' :: post) := by
  rw [replaceConstants_known cmap pre k ('$' :: '[' :: (j ++ [']'])) post
    hpre hlast hk hkr hlook ?_ hpost1 hpost2]
  · simp
  · intro hm
    rcases List.mem_cons.mp hm with h | h
    · exact absurd h.symm (by decide)
    · rcases List.mem_cons.mp h with h' | h'
      · exact absurd h'.symm (by decide)
      · rcases List.mem_append.mp h' with h2 | h2
        · exact hj2 h2
        · simp only [List.mem_singleton] at h2
          exact absurd h2.symm (by decide)

/-- C10 witness: with `a ↦ $[b]` and `b ↦ BOOM`, the text `x $[a] y`
becomes `x $[b] y` — `$[b]` is not expanded to `BOOM`. -/
theorem C10_no_reexpansion_witness :
    replaceConstantsWith
      [((("a").toList), (("$[b]").toList)),
       ((("b").toList), (("BOOM").toList))]
      ((("x ").toList) ++ '$' :: '[' ::
        ((("a").toList) ++ ']' :: ((" y").toList))) =
      (("x ").toList) ++ '$' :: '[' :: ((("b").toList) ++ ']' :: ((" y").toList)) :=
  C10_no_reexpansion
    [((("a").toList), (("$[b]").toList)), ((("b").toList), (("BOOM").toList))]
    (("x ").toList) (("a").toList) (("b").toList) (("BOOM").toList)
    ((" y").toList)
    (by decide) (by decide) (by decide) (by decide) (by decide) (by decide)
    (by decide) (by decide) (by decide) (by decide)

/-!
## Claim C1: link-map merge and enumeration
-/

theorem alistGet_alistSet {α β : Type} [DecidableEq α]
    (m : List (α × β)) (k k' : α) (v : β) :
    alistGet (alistSet m k v) k' =
      if k = k' then some v else alistGet m k' := by
  induction m with
  | nil => rfl
  | cons kv rest ih =>
    obtain ⟨k1, v1⟩ := kv
    show alistGet (if k1 = k then (k, v) :: rest
        else (k1, v1) :: alistSet rest k v) k' = _
    by_cases h1 : k1 = k
    · rw [if_pos h1]
      show (if k = k' then some v else alistGet rest k') = _
      by_cases h2 : k = k'
      · rw [if_pos h2, if_pos h2]
      · rw [if_neg h2, if_neg h2]
        show alistGet rest k' = if k1 = k' then some v1 else alistGet rest k'
        rw [if_neg (fun h3 => h2 (h1.symm.trans h3))]
    · rw [if_neg h1]
      show (if k1 = k' then some v1 else alistGet (alistSet rest k v) k') = _
      rw [ih]
      by_cases h3 : k1 = k'
      · rw [if_pos h3]
        rw [if_neg (fun h2 => h1 (h3.trans h2.symm))]
        show some v1 = if k1 = k' then some v1 else alistGet rest k'
        rw [if_pos h3]
      · rw [if_neg h3]
        show _ = if k = k' then some v
          else if k1 = k' then some v1 else alistGet rest k'
        by_cases h2 : k = k'
        · rw [if_pos h2, if_pos h2]
        · rw [if_neg h2, if_neg h2, if_neg h3]

theorem alistSet_append_of_none {α β : Type} [DecidableEq α]
    {m : List (α × β)} {k : α} (v : β) (h : alistGet m k = none) :
    alistSet m k v = m ++ [(k, v)] := by
  induction m with
  | nil => rfl
  | cons kv rest ih =>
    obtain ⟨k1, v1⟩ := kv
    have h' : (if k1 = k then some v1 else alistGet rest k) = none := h
    by_cases h1 : k1 = k
    · rw [if_pos h1] at h'
      simp at h'
    · rw [if_neg h1] at h'
      show (if k1 = k then (k, v) :: rest else (k1, v1) :: alistSet rest k v) = _
      rw [if_neg h1, ih h']
      rfl

theorem alistGet_append {α β : Type} [DecidableEq α]
    (m m' : List (α × β)) (k : α) :
    alistGet (m ++ m') k =
      match alistGet m k with
      | some v => some v
      | none => alistGet m' k := by
  induction m with
  | nil => rfl
  | cons kv rest ih =>
    obtain ⟨k1, v1⟩ := kv
    rw [List.cons_append]
    show (if k1 = k then some v1 else alistGet (rest ++ m') k) = _
    by_cases h1 : k1 = k
    · rw [if_pos h1]
      rw [show alistGet ((k1, v1) :: rest) k = some v1 from by
        show (if k1 = k then some v1 else alistGet rest k) = some v1
        rw [if_pos h1]]
    · rw [if_neg h1, ih]
      rw [show alistGet ((k1, v1) :: rest) k = alistGet rest k from by
        show (if k1 = k then some v1 else alistGet rest k) = alistGet rest k
        rw [if_neg h1]]

/-- The grouping fold of `_merge_link_maps` only creates keys taken from the
maps it is given. -/
theorem mergeFold_key_mem (auto : List LinkMap) :
    ∀ (acc : List ((List Char × List Char) × List (List Char × List Char)))
      (k : List Char × List Char),
      alistGet (auto.foldl mergeStep acc) k ≠ none →
      alistGet acc k ≠ none ∨ k ∈ auto.map (fun lm => (lm.host, lm.scope)) := by
  induction auto with
  | nil => intro acc k h; exact Or.inl h
  | cons lm rest ih =>
    intro acc k h
    rw [List.foldl_cons] at h
    rcases ih (mergeStep acc lm) k h with h1 | h1
    · unfold mergeStep at h1
      rw [alistGet_alistSet] at h1
      by_cases he : (lm.host, lm.scope) = k
      · exact Or.inr (by simp [← he])
      · rw [if_neg he] at h1
        exact Or.inl h1
    · exact Or.inr (by simp only [List.map_cons, List.mem_cons]; exact Or.inr h1)

/-- Merging a map whose `(host, scope)` key is new appends a fresh group. -/
theorem mergeStep_of_absent
    (acc : List ((List Char × List Char) × List (List Char × List Char)))
    (lm : LinkMap) (h : alistGet acc (lm.host, lm.scope) = none) :
    mergeStep acc lm = acc ++ [((lm.host, lm.scope), dictUpdate [] lm.links)] := by
  show alistSet acc (lm.host, lm.scope)
      (dictUpdate ((alistGet acc (lm.host, lm.scope)).getD []) lm.links) = _
  rw [h]
  exact alistSet_append_of_none _ h

/-- Writing a list of entries into a result dict: the last write for a key
wins; keys not written keep their previous binding. -/
theorem foldl_alistSet_get (g : List Char → List Char)
    (entries : List (List Char × List Char)) :
    ∀ (r : List (List Char × List Char)) (k : List Char),
      alistGet (entries.foldl (fun r kv => alistSet r kv.1 (g kv.2)) r) k =
        match lastLookup entries k with
        | some v => some (g v)
        | none => alistGet r k := by
  induction entries with
  | nil => intro r k; rfl
  | cons kv rest ih =>
    intro r k
    obtain ⟨k1, v1⟩ := kv
    rw [List.foldl_cons, ih (alistSet r k1 (g v1)) k]
    cases hlk : lastLookup rest k with
    | some v =>
      have hv : lastLookup ((k1, v1) :: rest) k = some v := by
        unfold lastLookup
        rw [hlk]
      rw [hv]
    | none =>
      have hv : lastLookup ((k1, v1) :: rest) k =
          if k1 = k then some v1 else none := by
        unfold lastLookup
        rw [hlk]
      rw [hv, alistGet_alistSet]
      by_cases h : k1 = k
      · rw [if_pos h, if_pos h]
      · rw [if_neg h, if_neg h]

/-- What one step of `_enumerate_links` does to the binding of one label. -/
theorem enumStep_get (scope : List Char) (r : List (List Char × List Char))
    (lm : LinkMap) (k : List Char) :
    alistGet (enumStep scope r lm) k =
      if lm.scope = scope then
        match lastLookup lm.links k with
        | some v =>
          some (if (("http").toList).isPrefixOf v then v else lm.host ++ v)
        | none => alistGet r k
      else alistGet r k := by
  unfold enumStep
  by_cases h : lm.scope = scope
  · rw [if_pos h, if_pos h]
    exact foldl_alistSet_get
      (fun v => if (("http").toList).isPrefixOf v then v else lm.host ++ v)
      lm.links r k
  · rw [if_neg h, if_neg h]

theorem enumStep_get_skip (scope : List Char)
    (r : List (List Char × List Char)) (lm : LinkMap) (k : List Char)
    (h : ¬ lm.scope = scope) :
    alistGet (enumStep scope r lm) k = alistGet r k := by
  unfold enumStep
  rw [if_neg h]

theorem enumStep_get_none (scope : List Char)
    (r : List (List Char × List Char)) (lm : LinkMap) (k : List Char)
    (h : lm.scope = scope) (h2 : lastLookup lm.links k = none) :
    alistGet (enumStep scope r lm) k = alistGet r k := by
  rw [enumStep_get, if_pos h, h2]

theorem enumStep_get_some (scope : List Char)
    (r : List (List Char × List Char)) (lm : LinkMap) (k v : List Char)
    (h : lm.scope = scope) (h2 : lastLookup lm.links k = some v) :
    alistGet (enumStep scope r lm) k =
      some (if (("http").toList).isPrefixOf v then v else lm.host ++ v) := by
  rw [enumStep_get, if_pos h, h2]

/-- C1 counterexample: the manual python map defines `StateGraph`, yet with
`autoEvil` as the auto-generated registry the merged per-scope map resolves
`StateGraph` to the auto entry's URL, not the manual one: the manual
override is not unconditional across hosts. -/
theorem C1_counterexample :
    (manualMap1.scope = ("python").toList ∧
      alistGet manualMap1.links (("StateGraph").toList) =
        some (("reference/graphs/#langgraph.graph.StateGraph").toList)) ∧
    alistGet (enumerate_links autoEvil (("python").toList))
      (("StateGraph").toList) = some (("https://evil.example/sg").toList) ∧
    (("https://evil.example/sg").toList) ≠ stateGraphURL := by
  refine ⟨⟨by decide, by decide⟩, by decide, by decide⟩

/-- C1 (amended): the manual `StateGraph` entry wins over every
auto-generated registry whose `(host, scope)` grouping keys are disjoint
from the manual maps' keys (in particular over any registry with hosts
different from the manual hosts, and over the empty registry used in this
repository): merging appends every manual map after all auto groups, and
`_enumerate_links`' last-write-wins order then makes the manual python map's
`StateGraph` the final binding. -/
theorem C1_manual_override (auto : List LinkMap)
    (hdisj : ∀ a ∈ auto, ∀ m ∈ MANUAL_LINK_MAPS,
      (a.host, a.scope) ≠ (m.host, m.scope)) :
    alistGet (enumerate_links auto (("python").toList))
      (("StateGraph").toList) = some stateGraphURL := by
  have habs : ∀ m ∈ MANUAL_LINK_MAPS,
      alistGet (auto.foldl mergeStep []) (m.host, m.scope) = none := by
    intro m hm
    by_contra h
    rcases mergeFold_key_mem auto [] (m.host, m.scope) h with h1 | h1
    · exact h1 rfl
    · obtain ⟨a, ha, hk⟩ := List.mem_map.mp h1
      exact hdisj a ha m hm hk
  have h1 := habs manualMap1 (by simp [MANUAL_LINK_MAPS])
  have h2 := habs manualMap2 (by simp [MANUAL_LINK_MAPS])
  have h3 := habs manualMap3 (by simp [MANUAL_LINK_MAPS])
  have h4 := habs manualMap4 (by simp [MANUAL_LINK_MAPS])
  have h5 := habs manualMap5 (by simp [MANUAL_LINK_MAPS])
  have hne : ∀ mi mj : LinkMap,
      ¬ ((mi.host, mi.scope) = (mj.host, mj.scope)) →
      ∀ prev : List ((List Char × List Char) × List (List Char × List Char)),
        alistGet prev (mj.host, mj.scope) = none →
        alistGet (prev ++ [((mi.host, mi.scope), dictUpdate [] mi.links)])
          (mj.host, mj.scope) = none := by
    intro mi mj hne' prev hprev
    rw [alistGet_append, hprev]
    show alistGet [((mi.host, mi.scope), dictUpdate [] mi.links)]
      (mj.host, mj.scope) = none
    unfold alistGet
    rw [if_neg hne']
    rfl
  have hg2 := hne manualMap1 manualMap2 (by decide) _ h2
  have hg3a := hne manualMap1 manualMap3 (by decide) _ h3
  have hg3 := hne manualMap2 manualMap3 (by decide) _ hg3a
  have hg4a := hne manualMap1 manualMap4 (by decide) _ h4
  have hg4b := hne manualMap2 manualMap4 (by decide) _ hg4a
  have hg4 := hne manualMap3 manualMap4 (by decide) _ hg4b
  have hg5a := hne manualMap1 manualMap5 (by decide) _ h5
  have hg5b := hne manualMap2 manualMap5 (by decide) _ hg5a
  have hg5c := hne manualMap3 manualMap5 (by decide) _ hg5b
  have hg5 := hne manualMap4 manualMap5 (by decide) _ hg5c
  have hmerged : MANUAL_LINK_MAPS.foldl mergeStep (auto.foldl mergeStep []) =
      auto.foldl mergeStep [] ++
        [((manualMap1.host, manualMap1.scope), dictUpdate [] manualMap1.links),
         ((manualMap2.host, manualMap2.scope), dictUpdate [] manualMap2.links),
         ((manualMap3.host, manualMap3.scope), dictUpdate [] manualMap3.links),
         ((manualMap4.host, manualMap4.scope), dictUpdate [] manualMap4.links),
         ((manualMap5.host, manualMap5.scope), dictUpdate [] manualMap5.links)] := by
    show List.foldl mergeStep (auto.foldl mergeStep [])
      [manualMap1, manualMap2, manualMap3, manualMap4, manualMap5] = _
    rw [List.foldl_cons, mergeStep_of_absent _ _ h1,
      List.foldl_cons, mergeStep_of_absent _ _ hg2,
      List.foldl_cons, mergeStep_of_absent _ _ hg3,
      List.foldl_cons, mergeStep_of_absent _ _ hg4,
      List.foldl_cons, mergeStep_of_absent _ _ hg5,
      List.foldl_nil]
    simp [List.append_assoc]
  show alistGet (List.foldl (enumStep (("python").toList)) []
    ((MANUAL_LINK_MAPS.foldl mergeStep (auto.foldl mergeStep [])).map
      (fun kl => ({ host := kl.1.1, scope := kl.1.2, links := kl.2 } :
        LinkMap)))) (("StateGraph").toList) = some stateGraphURL
  rw [hmerged, List.map_append, List.foldl_append]
  simp only [List.map_cons, List.map_nil, List.foldl_cons, List.foldl_nil]
  rw [enumStep_get_skip _ _ _ _ (by decide)]
  rw [enumStep_get_none _ _ _ _ (by decide) (by decide)]
  rw [enumStep_get_skip _ _ _ _ (by decide)]
  rw [enumStep_get_skip _ _ _ _ (by decide)]
  rw [enumStep_get_some _ _ _ _
    (("reference/graphs/#langgraph.graph.StateGraph").toList)
    (by decide) (by decide)]
  decide

/-- C1 witness: the amended override instantiated at a nonempty
auto-generated registry with a different host that also defines
`StateGraph` in scope python: the manual URL still wins. -/
theorem C1_manual_override_witness :
    alistGet (enumerate_links
      [{ host := ("https://other.example/").toList,
         scope := ("python").toList,
         links := [((("StateGraph").toList), (("elsewhere").toList))] }]
      (("python").toList)) (("StateGraph").toList) = some stateGraphURL :=
  C1_manual_override
    [{ host := ("https://other.example/").toList,
       scope := ("python").toList,
       links := [((("StateGraph").toList), (("elsewhere").toList))] }]
    (by decide)

/-!
## Lemmas for conditional-block resolution (claim C2)
-/

theorem dropWhile_append_stop (p : Char → Bool) (k : List Char) (d : Char)
    (t : List Char) (hall : ∀ c ∈ k, p c = true) (hd : p d = false) :
    (k ++ d :: t).dropWhile p = d :: t := by
  induction k with
  | nil => simp [List.dropWhile_cons, hd]
  | cons c k' ih =>
    have hc : p c = true := hall c (List.mem_cons_self c k')
    simp only [List.cons_append, List.dropWhile_cons, hc, if_true]
    exact ih (fun c2 hc' => hall c2 (List.mem_cons_of_mem c hc'))

theorem isIndentChar_eq_false {c : Char} (h : isPySpace c = false) :
    isIndentChar c = false := by
  cases hi : isIndentChar c with
  | false => rfl
  | true =>
    unfold isIndentChar at hi
    unfold isPySpace at h
    rcases Bool.or_eq_true_iff.mp hi with h1 | h1 <;> simp [h1] at h

theorem splitFirstLine_append (k t : List Char) (h : '\n' ∉ k) :
    splitFirstLine (k ++ '\n' :: t) = some (k, t) := by
  have hall : ∀ c ∈ k, (c != '\n') = true := by
    intro c hc
    have hcne : c ≠ '\n' := fun he => h (he ▸ hc)
    simp [hcne]
  have hdw : (k ++ '\n' :: t).dropWhile (fun c => c != '\n') = '\n' :: t :=
    dropWhile_append_stop _ k '\n' t hall (by simp)
  have htw : (k ++ '\n' :: t).takeWhile (fun c => c != '\n') = k :=
    takeWhile_append_stop _ k '\n' t hall (by simp)
  unfold splitFirstLine
  rw [hdw, htw]
  simp

theorem condCloseAt_colons (x : List Char) :
    condCloseAt [] (':' :: ':' :: ':' :: x) = some 3 := by
  have hic : isIndentChar ':' = false := by decide
  have hdw : (':' :: ':' :: ':' :: x).dropWhile isIndentChar =
      ':' :: ':' :: ':' :: x := by
    simp [List.dropWhile_cons, hic]
  have htw : (':' :: ':' :: ':' :: x).takeWhile isIndentChar = [] := by
    simp [List.takeWhile_cons, hic]
  have hnp : (([] : List Char).isPrefixOf (':' :: ':' :: ':' :: x)) = true := rfl
  unfold condCloseAt
  rw [if_pos hnp]
  simp only [List.length_nil, List.drop_zero]
  rw [hdw, htw]
  rw [if_pos (by simp [List.isPrefixOf])]
  rfl

theorem condCloseAt_head_ne (a : Char) (x : List Char) (hne : a ≠ ':')
    (hsp : isPySpace a = false) : condCloseAt [] (a :: x) = none := by
  have hIa : isIndentChar a = false := isIndentChar_eq_false hsp
  have hdw : (a :: x).dropWhile isIndentChar = a :: x := by
    simp [List.dropWhile_cons, hIa]
  have hba : (':' == a) = false := beq_eq_false_iff_ne.mpr (Ne.symm hne)
  have hpre : ([':', ':', ':'].isPrefixOf (a :: x)) = false := by
    simp [List.isPrefixOf, hba]
  have hnp : (([] : List Char).isPrefixOf (a :: x)) = true := rfl
  unfold condCloseAt
  rw [if_pos hnp]
  simp only [List.length_nil, List.drop_zero]
  rw [hdw, hpre]
  simp

theorem lazyContent_of_close (close : List Char → Option Nat) (fuel : Nat)
    (rest : List Char) (n : Nat) (h : close rest = some n) :
    lazyContent close fuel rest = some ([], n) := by
  cases fuel with
  | zero => unfold lazyContent; rw [h]
  | succ f => unfold lazyContent; rw [h]

theorem lazyContent_extend (close : List Char → Option Nat) (fuel : Nat)
    (rest line rest' c : List Char) (n : Nat)
    (hclose : close rest = none)
    (hsp : splitFirstLine rest = some (line, rest'))
    (hrec : lazyContent close fuel rest' = some (c, n)) :
    lazyContent close (fuel + 1) rest = some (line ++ '\n' :: c, n) := by
  unfold lazyContent
  simp [hclose, hsp, hrec]

/-- The conditional block pattern matches the whole single-block document
`:::L\n` `content` `\n:::` when the language is a nonempty word and the content
line is newline- and colon-free and does not start with whitespace; the
`content` group is the content line including its terminating newline. -/
theorem condBlockMatchAt_block (prev : Option Char) (L : List Char) (a : Char)
    (A : List Char) (hprev : prev ≠ some '\\') (hL : L ≠ [])
    (hLw : ∀ c ∈ L, isWordChar c = true) (ha : isPySpace a = false)
    (h1 : '\n' ∉ a :: A) (h2 : ':' ∉ a :: A) :
    condBlockMatchAt prev (condBlockText L (a :: A)) =
      some (L.length + A.length + 9, L, (a :: A) ++ ['\n']) := by
  have hane : a ≠ ':' := fun he => h2 (by rw [he]; exact List.mem_cons_self ':' A)
  have hclose : condCloseAt [] ((a :: A) ++ '\n' :: ':' :: ':' :: ':' :: []) = none := by
    rw [List.cons_append]
    exact condCloseAt_head_ne a _ hane ha
  have hsp : splitFirstLine ((a :: A) ++ '\n' :: ':' :: ':' :: ':' :: []) =
      some (a :: A, ':' :: ':' :: ':' :: []) :=
    splitFirstLine_append (a :: A) _ h1
  have hlc : lazyContent (condCloseAt []) (A.length + 4 + 1)
      ((a :: A) ++ '\n' :: ':' :: ':' :: ':' :: []) =
      some ((a :: A) ++ '\n' :: [], 3) :=
    lazyContent_extend _ _ _ _ _ _ _ hclose hsp
      (lazyContent_of_close _ _ _ _ (condCloseAt_colons []))
  have hlen5 : ((a :: A) ++ '\n' :: ':' :: ':' :: ':' :: ([] : List Char)).length =
      A.length + 4 + 1 := by
    simp
  have hbt : blockTail (condCloseAt [])
      ('\n' :: ((a :: A) ++ '\n' :: ':' :: ':' :: ':' :: [])) =
      some (1, (a :: A) ++ '\n' :: [], 3) := by
    have hrun : ('\n' :: ((a :: A) ++ '\n' :: ':' :: ':' :: ':' :: [])).takeWhile
        isPySpace = ['\n'] := by
      simp [List.takeWhile_cons, List.cons_append,
        (by decide : isPySpace '\n' = true), ha]
    simp only [blockTail]
    rw [hrun]
    rw [(by decide : newlineSplits ['\n'] = [0])]
    rw [List.findSome?_cons]
    simp only [List.drop_succ_cons, List.drop_zero]
    rw [hlen5, hlc]
    simp
  have hTW : ((':' :: ':' :: ':' ::
      (L ++ '\n' :: ((a :: A) ++ '\n' :: ':' :: ':' :: ':' :: []))).takeWhile
        isIndentChar) = [] := by
    simp [List.takeWhile_cons, (by decide : isIndentChar ':' = false)]
  have hW : (L ++ '\n' :: ((a :: A) ++ '\n' :: ':' :: ':' :: ':' :: [])).takeWhile
      isWordChar = L :=
    takeWhile_append_stop _ L '\n' _ hLw (by decide)
  have hemp : L.isEmpty = false := by
    cases L with
    | nil => exact absurd rfl hL
    | cons c t => rfl
  unfold condBlockText condBlockMatchAt
  rw [hTW]
  simp only [List.getLast?_nil, Option.none_orElse, List.length_nil,
    List.drop_zero]
  rw [if_neg hprev]
  rw [hW, hemp]
  simp only [Bool.false_eq_true, if_false]
  rw [List.drop_left, hbt]
  simp only [Option.map_some']
  simp only [List.length_append, List.length_cons, List.length_nil,
    Option.some.injEq, Prod.mk.injEq]
  exact ⟨by omega, trivial⟩

/-- The value of the block-substitution matcher on the single-block document:
the whole document is consumed, and the replacement is the content for the
target language, empty for the other recognized language, and the document
itself for an unrecognized language. -/
theorem condBlockMatcher_block (target L : List Char) (a : Char) (A : List Char)
    (hL : L ≠ []) (hLw : ∀ c ∈ L, isWordChar c = true) (ha : isPySpace a = false)
    (h1 : '\n' ∉ a :: A) (h2 : ':' ∉ a :: A) :
    condBlockMatcher target none (condBlockText L (a :: A)) =
      some ((condBlockText L (a :: A)).length,
        if L = ("python").toList ∨ L = ("js").toList then
          (if L = target then (a :: A) ++ ['\n'] else [])
        else condBlockText L (a :: A)) := by
  have hlen : (condBlockText L (a :: A)).length = L.length + A.length + 9 := by
    simp only [condBlockText, List.length_cons, List.length_append,
      List.length_nil]
    omega
  have htake : (condBlockText L (a :: A)).take (L.length + A.length + 9) =
      condBlockText L (a :: A) := by
    rw [← hlen]
    exact List.take_length _
  unfold condBlockMatcher
  rw [condBlockMatchAt_block none L a A (by simp) hL hLw ha h1 h2]
  simp only [Option.map_some']
  rw [htake, hlen]

/-- The block-substitution pass on the single-block document. -/
theorem condPass_block (target L : List Char) (a : Char) (A : List Char)
    (hL : L ≠ []) (hLw : ∀ c ∈ L, isWordChar c = true) (ha : isPySpace a = false)
    (h1 : '\n' ∉ a :: A) (h2 : ':' ∉ a :: A) :
    reSub (condBlockMatcher target) (condBlockText L (a :: A)) =
      (if L = ("python").toList ∨ L = ("js").toList then
        (if L = target then (a :: A) ++ ['\n'] else [])
      else condBlockText L (a :: A)) := by
  have hne : condBlockText L (a :: A) ≠ [] := by simp [condBlockText]
  have hfuel : 1 ≤ (condBlockText L (a :: A)).length :=
    Nat.succ_le_succ (Nat.zero_le _)
  have hm := condBlockMatcher_block target L a A hL hLw ha h1 h2
  unfold reSub
  have hstep := reSubGo_fire (condBlockMatcher target)
    (condBlockText L (a :: A)).length none (condBlockText L (a :: A)) [] _
    hne hfuel (by rw [List.append_nil]; exact hm)
  rw [List.append_nil] at hstep
  rw [hstep, reSubGo_nil, List.append_nil]

theorem unescape_pass_id (s : List Char) (h : '\\' ∉ s) :
    reSub colonUnescapeMatcher s = s :=
  reSub_eq_self_of_head colonUnescapeMatcher '\\'
    (fun _ _ _ hm => colonUnescapeMatcher_head hm) s h

theorem ignored_pass_id (s : List Char) (h : '`' ∉ s) :
    reSub ignoredBlockMatcher s = s :=
  reSub_eq_self_of_shape ignoredBlockMatcher ['`', '`', '`']
    (fun _ _ _ hm => ignoredBlockMatcher_hasSub hm) s
    (hasSub_eq_false_of_not_mem (by simp) h)

theorem not_mem_condBlockText {c : Char} {L : List Char} {a : Char}
    {A : List Char} (hc1 : c ≠ ':') (hc2 : c ≠ '\n') (hcL : c ∉ L)
    (hcA : c ∉ a :: A) : c ∉ condBlockText L (a :: A) := by
  intro hm
  unfold condBlockText at hm
  simp only [List.mem_cons, List.mem_append, List.not_mem_nil, or_false] at hm
  simp only [List.mem_cons] at hcA
  tauto

theorem not_mem_of_word (L : List Char) (hLw : ∀ c ∈ L, isWordChar c = true)
    {c : Char} (hc : isWordChar c = false) : c ∉ L :=
  fun hm => absurd (hLw c hm) (by simp [hc])

/-- `_apply_conditional_rendering` on the single-block document, for a valid
target language: the block is resolved according to its language tag and the
unescape and ignore passes leave the result unchanged. -/
theorem apply_conditional_rendering_block (target L : List Char) (a : Char)
    (A : List Char)
    (htar : target = ("python").toList ∨ target = ("js").toList)
    (hL : L ≠ []) (hLw : ∀ c ∈ L, isWordChar c = true) (ha : isPySpace a = false)
    (h1 : '\n' ∉ a :: A) (h2 : ':' ∉ a :: A) (h3 : '\\' ∉ a :: A)
    (h4 : '`' ∉ a :: A) :
    apply_conditional_rendering target (condBlockText L (a :: A)) =
      some (if L = ("python").toList ∨ L = ("js").toList then
              (if L = target then (a :: A) ++ ['\n'] else [])
            else condBlockText L (a :: A)) := by
  have hbsT : '\\' ∉ condBlockText L (a :: A) :=
    not_mem_condBlockText (by decide) (by decide)
      (not_mem_of_word L hLw (by decide)) h3
  have hbtT : '`' ∉ condBlockText L (a :: A) :=
    not_mem_condBlockText (by decide) (by decide)
      (not_mem_of_word L hLw (by decide)) h4
  have hbs2 : '\\' ∉ (a :: A) ++ ['\n'] := by
    intro hm
    rcases List.mem_append.mp hm with hmm | hmm
    · exact h3 hmm
    · simp only [List.mem_singleton] at hmm
      exact absurd hmm (by decide)
  have hbt2 : '`' ∉ (a :: A) ++ ['\n'] := by
    intro hm
    rcases List.mem_append.mp hm with hmm | hmm
    · exact h4 hmm
    · simp only [List.mem_singleton] at hmm
      exact absurd hmm (by decide)
  unfold apply_conditional_rendering
  rw [if_pos htar]
  rw [condPass_block target L a A hL hLw ha h1 h2]
  by_cases hpj : L = ("python").toList ∨ L = ("js").toList
  · rw [if_pos hpj]
    by_cases heq : L = target
    · rw [if_pos heq]
      rw [unescape_pass_id _ hbs2, ignored_pass_id _ hbt2]
    · rw [if_neg heq]
      rfl
  · rw [if_neg hpj]
    rw [unescape_pass_id _ hbsT, ignored_pass_id _ hbtT]

/-- C2: for target language `python`, conditional resolution replaces a
well-formed `:::python` block by exactly its inner content (fences and their
line terminators removed, so the content line keeps its own newline), replaces
a `:::js` block by the empty string, and leaves a `:::ruby` block
byte-identical including its fence lines; symmetrically for target language
`js`.  Formalised for a block whose single content line is free of newline,
colon, backslash and backtick and does not start with whitespace. -/
theorem C2_conditional_resolution (a : Char) (A : List Char)
    (ha : isPySpace a = false) (h1 : '\n' ∉ a :: A) (h2 : ':' ∉ a :: A)
    (h3 : '\\' ∉ a :: A) (h4 : '`' ∉ a :: A) :
    (apply_conditional_rendering (("python").toList)
        (condBlockText (("python").toList) (a :: A)) =
      some ((a :: A) ++ ['\n'])) ∧
    (apply_conditional_rendering (("python").toList)
        (condBlockText (("js").toList) (a :: A)) = some []) ∧
    (apply_conditional_rendering (("python").toList)
        (condBlockText (("ruby").toList) (a :: A)) =
      some (condBlockText (("ruby").toList) (a :: A))) ∧
    (apply_conditional_rendering (("js").toList)
        (condBlockText (("js").toList) (a :: A)) =
      some ((a :: A) ++ ['\n'])) ∧
    (apply_conditional_rendering (("js").toList)
        (condBlockText (("python").toList) (a :: A)) = some []) ∧
    (apply_conditional_rendering (("js").toList)
        (condBlockText (("ruby").toList) (a :: A)) =
      some (condBlockText (("ruby").toList) (a :: A))) := by
  refine ⟨?_, ?_, ?_, ?_, ?_, ?_⟩
  · rw [apply_conditional_rendering_block _ _ a A (Or.inl rfl) (by decide)
      (by decide) ha h1 h2 h3 h4]
    rw [if_pos (Or.inl rfl), if_pos rfl]
  · rw [apply_conditional_rendering_block _ _ a A (Or.inl rfl) (by decide)
      (by decide) ha h1 h2 h3 h4]
    rw [if_pos (Or.inr rfl), if_neg (by decide)]
  · rw [apply_conditional_rendering_block _ _ a A (Or.inl rfl) (by decide)
      (by decide) ha h1 h2 h3 h4]
    rw [if_neg (by decide)]
  · rw [apply_conditional_rendering_block _ _ a A (Or.inr rfl) (by decide)
      (by decide) ha h1 h2 h3 h4]
    rw [if_pos (Or.inr rfl), if_pos rfl]
  · rw [apply_conditional_rendering_block _ _ a A (Or.inr rfl) (by decide)
      (by decide) ha h1 h2 h3 h4]
    rw [if_pos (Or.inl rfl), if_neg (by decide)]
  · rw [apply_conditional_rendering_block _ _ a A (Or.inr rfl) (by decide)
      (by decide) ha h1 h2 h3 h4]
    rw [if_neg (by decide)]

/-- C2 witness: the resolution equations instantiated at the one-character
content line `A`. -/
theorem C2_conditional_resolution_witness :
    (apply_conditional_rendering (("python").toList)
        (condBlockText (("python").toList) ('A' :: [])) =
      some (('A' :: []) ++ ['\n'])) ∧
    (apply_conditional_rendering (("python").toList)
        (condBlockText (("js").toList) ('A' :: [])) = some []) ∧
    (apply_conditional_rendering (("python").toList)
        (condBlockText (("ruby").toList) ('A' :: [])) =
      some (condBlockText (("ruby").toList) ('A' :: []))) ∧
    (apply_conditional_rendering (("js").toList)
        (condBlockText (("js").toList) ('A' :: [])) =
      some (('A' :: []) ++ ['\n'])) ∧
    (apply_conditional_rendering (("js").toList)
        (condBlockText (("python").toList) ('A' :: [])) = some []) ∧
    (apply_conditional_rendering (("js").toList)
        (condBlockText (("ruby").toList) ('A' :: [])) =
      some (condBlockText (("ruby").toList) ('A' :: []))) :=
  C2_conditional_resolution 'A' [] (by decide) (by decide) (by decide)
    (by decide) (by decide)

end Docs
